import Mathlib

/-!
# Verification of the jaclang compilation driver (`jaclang/pycore`)

Shallow embedding of the compilation driver of the repository:
`JacProgram` (`program.py`), `JacCompiler` (`compiler.py`),
`JacAnnexPass` (`passes/annex_pass.py`) and `FixBreaksPass`
(`passes/fix_breaks_pass.py`), together with theorems settling the
frozen claims about them.

Conventions of the embedding:
* Python `bytes`/`None`/other values held in `mod.gen.py_bytecode` are the
  inductive `BCVal`; Python truthiness is `BCVal.truthy`.
* The collaborators that the driver calls but whose code is out of scope
  (file reader, the parsers, annex discovery, bytecode marshalling, path
  normalisation) are fields of an `Env` record; every driver function is
  parametrised by the `Env`.
* Mutation of a module / program in Python is explicit state passing here;
  the fact that the registry (`mod.hub`) holds the *same object* that the
  passes mutate is modelled by writing the final module value back into
  the registry at the points where the Python aliasing makes the update
  visible.
* Each driver call also returns a trace (`List Ev`) of the observable
  events (parser invocation, pass execution, nested compile calls, disk
  cache reads/writes, registry insertion, main-module adoption), so that
  claims about "pass X runs / does not run" are membership statements
  about the trace.
* The recursion `compile → parse_str → JacAnnexPass → compile` (annex
  files are compiled by the annex pass) is broken by a fuel parameter
  bounding the annex nesting depth; with fuel `0` the annex sub-compiles
  are skipped.
-/

namespace JacCore

/-- Python `str.endswith`, computed on the character list (kernel friendly). -/
def endsWithP (s suffix : String) : Bool :=
  suffix.toList.isSuffixOf s.toList

/-- Python `str.startswith`, computed on the character list. -/
def startsWithP (s pre : String) : Bool :=
  pre.toList.isPrefixOf s.toList

/-- The value held in a module's generated-artifact slot `gen.py_bytecode`:
Python `None`, a `bytes` object, or some other (non-`bytes`) object. -/
inductive BCVal where
  | noneV : BCVal
  | bytesV : List Nat → BCVal
  | otherV : Nat → BCVal
  deriving DecidableEq, Repr

/-- Python truthiness of a `gen.py_bytecode` value: `None` and empty `bytes`
are falsy, everything else is truthy. -/
def BCVal.truthy : BCVal → Bool
  | .noneV => false
  | .bytesV b => !b.isEmpty
  | .otherV _ => true

/-- The artifact slot is empty when its value is falsy (Python `None` or `b""`). -/
def BCVal.isEmptySlot (v : BCVal) : Bool := !v.truthy

/-- The passes the driver schedules (names as imported in `program.py` /
`compiler.py`). -/
inductive PassName where
  | symTabBuild | declImplMatch | semanticAnalysis | semDefMatch | cfgBuild
  | typeCheck | esastGen | pyastGen | pyJacAstLink | pyBytecodeGen
  | catchBreaks | fixDynBreaks | fixSEBreaks | jacAnnex
  deriving DecidableEq, Repr

/-- The three parser implementations `parse_str` dispatches to. -/
inductive ParserKind where
  | pyAst | tsParser | jacParser
  deriving DecidableEq, Repr

/-- Observable events of a driver call. -/
inductive Ev where
  | parserRun : ParserKind → String → Ev
  | passRun : PassName → String → Ev
  | compileCall : String → Bool → Bool → Ev
  | diskGet : String → Bool → Ev
  | diskPut : String → Bool → Ev
  | hubInsertEv : String → Ev
  | adoptMain : String → Ev
  deriving DecidableEq, Repr

/-- `get_symtab_ir_sched` of `program.py`. -/
def get_symtab_ir_sched : List PassName := [.symTabBuild, .declImplMatch]

/-- `get_ir_gen_sched` of `program.py`. -/
def get_ir_gen_sched : List PassName :=
  [.symTabBuild, .declImplMatch, .semanticAnalysis, .semDefMatch, .cfgBuild]

/-- `get_type_check_sched` of `program.py`. -/
def get_type_check_sched : List PassName := [.typeCheck]

/-- `get_py_code_gen` of `program.py`. -/
def get_py_code_gen : List PassName :=
  [.esastGen, .pyastGen, .pyJacAstLink, .pyBytecodeGen]

/-- `get_minimal_ir_gen_sched` of `program.py`. -/
def get_minimal_ir_gen_sched : List PassName :=
  [.symTabBuild, .declImplMatch, .semanticAnalysis]

/-- `get_minimal_py_code_gen` of `program.py`. -/
def get_minimal_py_code_gen : List PassName := [.pyastGen, .pyBytecodeGen]

/-- The result a parser transform leaves behind: its internal error list
(`errors_had`) and whether the produced module is marked as an annex child
(`annexable_by` non-empty). -/
structure ParseOut where
  errors_had : List String
  annexable_by : Bool
  deriving DecidableEq, Repr

/-- The external collaborators of the driver, out of scope of the core
(spec §6): file reader, the three parser implementations, annex-file
discovery, bytecode production and deserialisation, path normalisation and
the toolchain installation root. -/
structure Env where
  read_file : String → String
  parse : ParserKind → String → String → ParseOut
  discover_annex_files : String → String → List String
  gen_bytecode : String → List Nat
  unmarshal : List Nat → Nat
  norm : String → String
  jaclang_root : String

/-- The per-module state the claims observe (`uni.Module`): canonical path,
syntax-error flag, stub flag, annex-child flag, the artifact slot and the
attached annex sub-module lists (recorded by annex path). -/
structure ModData where
  mod_path : String
  has_syntax_errors : Bool
  stub_only : Bool
  annexable_by : Bool
  py_bytecode : BCVal
  impl_mod : List String
  test_mod : List String
  deriving DecidableEq, Repr

/-- The per-program state the claims observe (`JacProgram`): whether the
main module is still the placeholder stub, which module is main, the
path-keyed registry `mod.hub`, and the two diagnostic lists. -/
structure ProgState where
  main_stub : Bool
  main_path : Option String
  hub : List (String × ModData)
  errors_had : List String
  warnings_had : List String
  deriving DecidableEq, Repr

/-- A freshly constructed `JacProgram()`: stub main module, empty registry,
empty diagnostic lists. -/
def freshProg : ProgState :=
  { main_stub := true, main_path := none, hub := [],
    errors_had := [], warnings_had := [] }

/-- Lookup in the path-keyed registry. -/
def hubLookup (h : List (String × ModData)) (p : String) : Option ModData :=
  match h with
  | [] => none
  | kv :: rest => if kv.1 = p then some kv.2 else hubLookup rest p

/-- Insert/overwrite a registry binding (Python `dict` assignment). -/
def hubInsert (h : List (String × ModData)) (p : String) (m : ModData) :
    List (String × ModData) :=
  match h with
  | [] => [(p, m)]
  | kv :: rest => if kv.1 = p then (p, m) :: rest else kv :: hubInsert rest p m

/-- Effect of one pass on the observed module state.  The analysis passes
mutate only the AST and the diagnostics (spec §3, Transform contract), so
they are the identity on the observables; `PyBytecodeGenPass` fills the
artifact slot with the produced bytecode. -/
def applyPass (env : Env) (p : PassName) (m : ModData) : ModData :=
  match p with
  | .pyBytecodeGen => { m with py_bytecode := .bytesV (env.gen_bytecode m.mod_path) }
  | _ => m

/-- `JacProgram.run_schedule`: run the passes in order on the module,
recording a `passRun` event for each. -/
def run_schedule (env : Env) (passes : List PassName) (m : ModData) :
    ModData × List Ev :=
  match passes with
  | [] => (m, [])
  | p :: rest =>
    let m1 := applyPass env p m
    let r := run_schedule env rest m1
    (r.1, Ev.passRun p m.mod_path :: r.2)

/-- The per-call result of a driver function: final module, final program
state, event trace. -/
abbrev DriveRes := ModData × ProgState × List Ev

/-- The annex pass compiles discovered annex files through
`jac_program.compile`; this is the shape of that callback.  `none` models
exhausted recursion fuel (annex sub-compiles skipped). -/
abbrev AnnexCF := Option (ProgState → String → DriveRes)

/-- The loops of `JacAnnexPass._load_annexes`: compile every discovered
annex path with `no_cgen=True, minimal=True` and collect the paths of the
attached modules (`compile` always returns a truthy module object, so every
discovered path is appended). -/
def loadAnnexList (cf : AnnexCF) (st : ProgState) (paths : List String) :
    List String × ProgState × List Ev :=
  match paths with
  | [] => ([], st, [])
  | p :: rest =>
    match cf with
    | none => ([], st, [])
    | some f =>
      let r1 := f st p
      let r2 := loadAnnexList cf r1.2.1 rest
      (p :: r2.1, r2.2.1, r1.2.2 ++ r2.2.2)

/-- `JacAnnexPass.transform` / `_load_annexes` (`passes/annex_pass.py`):
skip stub modules, non-`.jac` files and modules that are themselves an
annex; otherwise compile every discovered `.impl.jac` / `.test.jac` file
and append it to `impl_mod` / `test_mod`. -/
def jacAnnexPass (env : Env) (cf : AnnexCF) (st : ProgState) (m : ModData) :
    DriveRes :=
  let ev : List Ev := [Ev.passRun .jacAnnex m.mod_path]
  if m.stub_only || !(endsWithP m.mod_path ".jac") || m.annexable_by then
    (m, st, ev)
  else
    let ri := loadAnnexList cf st (env.discover_annex_files m.mod_path ".impl.jac")
    let rt := loadAnnexList cf ri.2.1 (env.discover_annex_files m.mod_path ".test.jac")
    ({ m with impl_mod := m.impl_mod ++ ri.1, test_mod := m.test_mod ++ rt.1 },
     rt.2.1, ev ++ ri.2.2 ++ rt.2.2)

/-- Main-module adoption (`if self.mod.main.stub_only: self.mod =
uni.ProgramModule(mod)`): when the main module is still a stub, the parsed
module becomes the main module. -/
def adoptState (st : ProgState) (path : String) : ProgState :=
  if st.main_stub then { st with main_stub := false, main_path := some path }
  else st

/-- The adoption event of `adoptState`. -/
def adoptTrace (st : ProgState) (path : String) : List Ev :=
  if st.main_stub then [Ev.adoptMain path] else []

/-- Registry insertion `self.mod.hub[mod.loc.mod_path] = mod`. -/
def insertedState (st : ProgState) (m : ModData) : ProgState :=
  { st with hub := hubInsert st.hub m.mod_path m }

/-- `JacProgram.parse_str` (`program.py`): dispatch on the file extension
to one of the three parsers, compute `had_error` from the parser's error
list, and on success adopt the module as main if the main module is still a
stub, insert it into the registry under its path, and run the annex pass.
The final registry write-back (`insertedState ra.2.1 ra.1`) reflects that
the registry holds the same module object the annex pass just mutated. -/
def parse_str (env : Env) (cf : AnnexCF) (st : ProgState)
    (source_str file_path : String) : DriveRes :=
  let pr : ParserKind × ParseOut :=
    if endsWithP file_path ".py" || endsWithP file_path ".pyi" then
      (ParserKind.pyAst, env.parse .pyAst source_str file_path)
    else if endsWithP file_path ".js" || endsWithP file_path ".ts" ||
        endsWithP file_path ".jsx" || endsWithP file_path ".tsx" then
      (ParserKind.tsParser, env.parse .tsParser source_str file_path)
    else
      (ParserKind.jacParser, env.parse .jacParser source_str file_path)
  let had_error : Bool := decide (0 < pr.2.errors_had.length)
  let mod : ModData :=
    { mod_path := file_path, has_syntax_errors := had_error, stub_only := false,
      annexable_by := pr.2.annexable_by, py_bytecode := .noneV,
      impl_mod := [], test_mod := [] }
  let tr0 : List Ev := [Ev.parserRun pr.1 file_path]
  if had_error then (mod, st, tr0)
  else
    let ra := jacAnnexPass env cf (insertedState (adoptState st file_path) mod) mod
    (ra.1, insertedState ra.2.1 ra.1,
     tr0 ++ adoptTrace st file_path ++ [Ev.hubInsertEv mod.mod_path] ++ ra.2.2)

/-- `keep_str = use_str or read_file_with_encoding(file_path)`
(Python `or`: an empty `use_str` string is falsy and falls back to the
file reader). -/
def keepStrOf (env : Env) (use_str : Option String) (file_path : String) :
    String :=
  match use_str with
  | some s => if s.isEmpty then env.read_file file_path else s
  | none => env.read_file file_path

/-- The IR-generation schedule `JacProgram.compile` selects
(`symtab_ir_only` / `minimal` / full branches). -/
def irSchedOf (symtab_ir_only minimal : Bool) : List PassName :=
  if symtab_ir_only then get_symtab_ir_sched
  else if minimal then get_minimal_ir_gen_sched
  else get_ir_gen_sched

/-- The code-generation schedule `JacProgram.compile` runs: the minimal or
full codegen schedule with `CatchBreaksPass`, `FixDynBreaksPass` and
`FixSEBreaksPass` inserted at positions 0, 1, 2 (the `insert` calls in
`program.py`). -/
def codegenSchedOf (minimal : Bool) : List PassName :=
  let cs := if minimal then get_minimal_py_code_gen else get_py_code_gen
  .catchBreaks :: .fixDynBreaks :: .fixSEBreaks :: cs

/-- `JacProgram.compile` (`program.py`), parametrised by the annex-compile
callback: read the source (Python `use_str or read_file(...)`: an empty
`use_str` falls back to the file), parse, run the selected IR schedule, the
type-check schedule when requested, and — only when the module has no
syntax errors and codegen is not suppressed — the code-generation schedule.
The final registry write-back reflects the in-place mutation of the module
object the registry holds. -/
def compileBody (env : Env) (cf : AnnexCF) (st : ProgState) (file_path : String)
    (use_str : Option String)
    (no_cgen type_check symtab_ir_only minimal : Bool) : DriveRes :=
  let rp := parse_str env cf st (keepStrOf env use_str file_path) file_path
  let mod1 := rp.1
  let r2 := run_schedule env (irSchedOf symtab_ir_only minimal) mod1
  let r3 : ModData × List Ev :=
    if type_check && !minimal then run_schedule env get_type_check_sched r2.1
    else (r2.1, [])
  let r4 : ModData × List Ev :=
    if !r3.1.has_syntax_errors && !no_cgen then
      run_schedule env (codegenSchedOf minimal) r3.1
    else (r3.1, [])
  let stF : ProgState :=
    if mod1.has_syntax_errors then rp.2.1
    else { rp.2.1 with hub := hubInsert rp.2.1.hub r4.1.mod_path r4.1 }
  (r4.1, stF, Ev.compileCall file_path no_cgen minimal :: rp.2.2 ++ r2.2 ++ r3.2 ++ r4.2)

/-- The annex-compile callback at a given fuel: the annex pass calls
`jac_program.compile(file_path=path, no_cgen=True, minimal=True)`
(`annex_pass.py`), at one less fuel. -/
def annexCompile (env : Env) : Nat → AnnexCF
  | 0 => none
  | n + 1 => some fun st p => compileBody env (annexCompile env n) st p none true false false true

/-- `JacProgram.compile` at a given annex-nesting fuel. -/
def compile (env : Env) (fuel : Nat) (st : ProgState) (file_path : String)
    (use_str : Option String)
    (no_cgen type_check symtab_ir_only minimal : Bool) : DriveRes :=
  compileBody env (annexCompile env fuel) st file_path use_str
    no_cgen type_check symtab_ir_only minimal

/-- Modelled from the spec: `CacheKey` of `bccache.py` (not under `src/`)
"derived from a normalized absolute path plus a boolean minimal mode flag"
(spec §3). -/
structure CacheKey where
  path : String
  minimal : Bool
  deriving DecidableEq, Repr

/-- Modelled from the spec: `CacheKey.for_source(full_target, minimal)`
(`bccache.py`, not under `src/`) builds the key from the normalised path
and the mode flag. -/
def CacheKey.for_source (env : Env) (full_target : String) (minimal : Bool) :
    CacheKey :=
  { path := env.norm full_target, minimal := minimal }

/-- Modelled from the spec: the on-disk bytecode cache tier of `bccache.py`
(not under `src/`): an opaque key→blob store with `get`/`put` (spec §6). -/
structure BytecodeCache where
  entries : List (CacheKey × List Nat)
  deriving DecidableEq, Repr

/-- Assoc-list lookup for disk-tier entries. -/
def cacheFind (es : List (CacheKey × List Nat)) (k : CacheKey) :
    Option (List Nat) :=
  match es with
  | [] => none
  | kv :: rest => if kv.1 = k then some kv.2 else cacheFind rest k

/-- Disk-tier lookup by `CacheKey`. -/
def BytecodeCache.getE (c : BytecodeCache) (k : CacheKey) : Option (List Nat) :=
  cacheFind c.entries k

/-- Disk-tier store by `CacheKey`. -/
def BytecodeCache.putE (c : BytecodeCache) (k : CacheKey) (b : List Nat) :
    BytecodeCache :=
  ⟨(k, b) :: c.entries⟩

/-- `JacProgram.get_bytecode` (`program.py`): three-tier lookup.
Tier 1: if the registry holds a module for the path with a truthy artifact
slot, return `marshal.loads` of it when it is `bytes`, else `None`
(`... if isinstance(codeobj, bytes) else None`).  Tier 2: disk cache by
`CacheKey(path, minimal)`.  Tier 3: compile; if the result has a truthy
bytecode slot, store it in the disk tier and return its deserialisation.
`get_bytecode_miss` is the tier-2/tier-3 part reached on a tier-1 miss. -/
def get_bytecode_miss (env : Env) (fuel : Nat) (st : ProgState)
    (cache : BytecodeCache) (full_target : String) (minimal : Bool) :
    Option Nat × ProgState × BytecodeCache × List Ev :=
  let key := CacheKey.for_source env full_target minimal
  let ev2 : List Ev := [Ev.diskGet full_target minimal]
  match cache.getE key with
  | some blob => (some (env.unmarshal blob), st, cache, ev2)
  | none =>
    let rc := compile env fuel st full_target none false false false minimal
    match rc.1.py_bytecode with
    | .bytesV b =>
      if b.isEmpty then (none, rc.2.1, cache, ev2 ++ rc.2.2)
      else (some (env.unmarshal b), rc.2.1, cache.putE key b,
            ev2 ++ rc.2.2 ++ [Ev.diskPut full_target minimal])
    | _ => (none, rc.2.1, cache, ev2 ++ rc.2.2)

/-- `JacProgram.get_bytecode`: the tier-1 in-memory check (registry keyed
by path only), falling through to `get_bytecode_miss`. -/
def get_bytecode (env : Env) (fuel : Nat) (st : ProgState)
    (cache : BytecodeCache) (full_target : String) (minimal : Bool) :
    Option Nat × ProgState × BytecodeCache × List Ev :=
  let tier1 : Option BCVal :=
    match hubLookup st.hub full_target with
    | some m => if m.py_bytecode.truthy then some m.py_bytecode else none
    | none => none
  match tier1 with
  | some (.bytesV b) => (some (env.unmarshal b), st, cache, [])
  | some _ => (none, st, cache, [])
  | none => get_bytecode_miss env fuel st cache full_target minimal

/-- The extension classification of the frontend dispatcher as the claims
state it: `.py`/`.pyi` → foreign-AST importer, `.js`/`.ts`/`.jsx`/`.tsx` →
alternate scripting-language parser, everything else → native grammar
parser. -/
def selectParser (file_path : String) : ParserKind :=
  if endsWithP file_path ".py" || endsWithP file_path ".pyi" then .pyAst
  else if endsWithP file_path ".js" || endsWithP file_path ".ts" ||
      endsWithP file_path ".jsx" || endsWithP file_path ".tsx" then .tsParser
  else .jacParser

/-! ## `JacCompiler` (`compiler.py`): the dual-program router -/

namespace JacCompiler

/-- `get_ir_gen_sched` of `compiler.py`: the full IR schedule with the three
dynamic-behavior fixup passes appended after the base passes. -/
def get_ir_gen_sched : List PassName :=
  [.symTabBuild, .declImplMatch, .semanticAnalysis, .semDefMatch, .cfgBuild,
   .catchBreaks, .fixSEBreaks, .fixDynBreaks]

/-- The IR schedule `JacCompiler.compile` selects. -/
def irSchedOf (symtab_ir_only minimal : Bool) : List PassName :=
  if symtab_ir_only then get_symtab_ir_sched
  else if minimal then get_minimal_ir_gen_sched
  else JacCompiler.get_ir_gen_sched

/-- The codegen schedule `JacCompiler.compile` runs (no pass insertion in
`compiler.py`). -/
def codegenSchedOf (minimal : Bool) : List PassName :=
  if minimal then get_minimal_py_code_gen else get_py_code_gen

/-- The body of `JacCompiler.compile` acting on the resolved program's
state (`compiler.py` lines 226-280); `parse_str` of `compiler.py` is
effect-identical to `JacProgram.parse_str`, and the annex pass inside it
compiles annex files through `JacProgram.compile` on the same program. -/
def compileOnProg (env : Env) (cf : AnnexCF) (st : ProgState)
    (file_path : String) (use_str : Option String)
    (no_cgen type_check symtab_ir_only minimal : Bool) : DriveRes :=
  let rp := parse_str env cf st (keepStrOf env use_str file_path) file_path
  let mod1 := rp.1
  let r2 := run_schedule env (JacCompiler.irSchedOf symtab_ir_only minimal) mod1
  let r3 : ModData × List Ev :=
    if type_check && !minimal then run_schedule env get_type_check_sched r2.1
    else (r2.1, [])
  let r4 : ModData × List Ev :=
    if !r3.1.has_syntax_errors && !no_cgen then
      run_schedule env (JacCompiler.codegenSchedOf minimal) r3.1
    else (r3.1, [])
  let stF : ProgState :=
    if mod1.has_syntax_errors then rp.2.1
    else { rp.2.1 with hub := hubInsert rp.2.1.hub r4.1.mod_path r4.1 }
  (r4.1, stF, Ev.compileCall file_path no_cgen minimal :: rp.2.2 ++ r2.2 ++ r3.2 ++ r4.2)

/-- The state of one `JacCompiler` instance together with the `JacProgram`
objects in play: the lazily constructed internal program slot
(`_internal_program`), a fresh-object allocator, and the store mapping each
program object (by identity) to its state. -/
structure GState where
  internal_prog : Option Nat
  next_id : Nat
  progs : List (Nat × ProgState)
  deriving DecidableEq, Repr

/-- Lookup a program's state by object identity. -/
def progsLookup (ps : List (Nat × ProgState)) (i : Nat) : Option ProgState :=
  match ps with
  | [] => none
  | kv :: rest => if kv.1 = i then some kv.2 else progsLookup rest i

/-- Update a program's state by object identity. -/
def progsInsert (ps : List (Nat × ProgState)) (i : Nat) (st : ProgState) :
    List (Nat × ProgState) :=
  match ps with
  | [] => [(i, st)]
  | kv :: rest => if kv.1 = i then (i, st) :: rest else kv :: progsInsert rest i st

/-- `JacCompiler.internal_program`: return the internal program, lazily
constructing a fresh `JacProgram()` on first use. -/
def internal_program (g : GState) : Nat × GState :=
  match g.internal_prog with
  | some pid => (pid, g)
  | none =>
    (g.next_id,
     { internal_prog := some g.next_id, next_id := g.next_id + 1,
       progs := (g.next_id, freshProg) :: g.progs })

/-- The test `JacCompiler._resolve_program` applies:
`os.path.normpath(file_path).startswith(jaclang_root + os.sep)`
(`os.sep` is `"/"` on this platform). -/
def is_internal_path (env : Env) (file_path : String) : Bool :=
  startsWithP (env.norm file_path) (env.jaclang_root ++ "/")

/-- `JacCompiler._resolve_program`: jaclang-internal paths go to the
internal program, everything else to the caller-supplied program. -/
def resolve_program (env : Env) (g : GState) (file_path : String)
    (target : Nat) : Nat × GState :=
  if is_internal_path env file_path then internal_program g
  else (target, g)

/-- `JacCompiler.compile`: resolve the owning program, run the compile body
on that program's state only, and write the updated state back. -/
def compile (env : Env) (fuel : Nat) (g : GState) (file_path : String)
    (target : Nat) (use_str : Option String)
    (no_cgen type_check symtab_ir_only minimal : Bool) :
    ModData × GState × List Ev :=
  let ra := resolve_program env g file_path target
  let actual := ra.1
  let g1 := ra.2
  let st := (progsLookup g1.progs actual).getD freshProg
  let rc := compileOnProg env (annexCompile env fuel) st file_path use_str
    no_cgen type_check symtab_ir_only minimal
  (rc.1, { g1 with progs := progsInsert g1.progs actual rc.2.1 }, rc.2.2)

end JacCompiler

/-! ## Cancellation (`run_schedule` with a cancel token)

`JacProgram.run_schedule` constructs each pass of the schedule in order,
handing it the cancellation token. -/

/-- Modelled from the spec: the `Transform` base class (`transform.py`, not
under `src/`) threads the cancel token through every pass constructor and a
pass checks it on entry, aborting before doing any work when it is set
(spec §4.4 Cancellation / §5). -/
def transformRun {σ : Type} (eff : PassName → σ → σ) (tokenSet : Bool)
    (p : PassName) (s : σ) : σ :=
  if tokenSet then s else eff p s

/-- `JacProgram.run_schedule` under an externally settable cancel token:
`tok i` is the token state observed when the `i`-th pass is constructed.
Returns the final module state and the indexed list of passes that actually
executed their work. -/
def run_schedule_tok {σ : Type} (eff : PassName → σ → σ) (tok : Nat → Bool)
    (passes : List PassName) (i : Nat) (s : σ) : σ × List (Nat × PassName) :=
  match passes with
  | [] => (s, [])
  | p :: rest =>
    let s1 := transformRun eff (tok i) p s
    let r := run_schedule_tok eff tok rest (i + 1) s1
    if tok i then (r.1, r.2) else (r.1, (i, p) :: r.2)

/-! ## `FixBreaksPass` (`passes/fix_breaks_pass.py`)

A small unified AST (`uni.*`) sufficient for the statement shapes
`exit_if_stmt` inspects and produces. -/

/-- Unified-AST expressions: `uni.Name`, `uni.String`, `uni.MultiString`,
`uni.AtomTrailer`, `uni.FuncCall`, `uni.KWPair` (a call parameter), and any
other expression node. -/
inductive UExpr where
  | name : String → UExpr
  | strLit : String → UExpr
  | multiStr : List String → UExpr
  | atomTrailer : UExpr → UExpr → UExpr
  | funcCall : UExpr → List UExpr → UExpr
  | kwPair : Option UExpr → UExpr → UExpr
  | otherE : Nat → UExpr

/-- Unified-AST statements: `uni.Assignment` (target list, value),
`uni.ReturnStmt`, `uni.ExprStmt`, `uni.IfStmt` (condition, body, optional
else-body, and the `has_break_dyn_cf` / `has_dynamo_graph_break` flag set
by the detector pass), and any other statement node. -/
inductive UStmt where
  | assignment : List UExpr → UExpr → UStmt
  | returnStmt : Option UExpr → UStmt
  | exprStmt : UExpr → UStmt
  | ifStmt : UExpr → List UStmt → Option (List UStmt) → Bool → UStmt
  | otherStmt : Nat → UStmt

/-- Python `hasattr(node, "value") and node.value` for the method-name node
(`uni.Name` and `uni.String` carry a `value` attribute). -/
def exprValueAttr : UExpr → Option String
  | .name v => some v
  | .strLit v => some v
  | _ => none

/-- Python `str(param.key)` used for a non-`Name` keyword key (only the
identity of the string matters for the key-set comparison). -/
def exprKeyStr : UExpr → String
  | .name v => v
  | .strLit v => "str:" ++ v
  | .multiStr _ => "multistr"
  | .atomTrailer _ _ => "atomtrailer"
  | .funcCall _ _ => "funccall"
  | .kwPair _ _ => "kwpair"
  | .otherE n => "other:" ++ toString n

/-- Keyword-dict insertion (later keys overwrite, order preserved —
Python `dict` assignment). -/
def kwInsert (ks : List (String × UExpr)) (k : String) (v : UExpr) :
    List (String × UExpr) :=
  match ks with
  | [] => [(k, v)]
  | kv :: rest => if kv.1 = k then (k, v) :: rest else kv :: kwInsert rest k v

/-- The parameter-collection loop of `FixBreaksPass.check_method_call`:
walk the call's parameters in order, appending positional args and
inserting keyword pairs into the keyword dict; a `KWPair` with a falsy
(`None`) key is dropped. -/
def collectParamsAux (params : List UExpr) (args : List UExpr)
    (kwargs : List (String × UExpr)) : List UExpr × List (String × UExpr) :=
  match params with
  | [] => (args.reverse, kwargs)
  | p :: rest =>
    match p with
    | .kwPair (some key) v =>
      let key_name :=
        match key with
        | .name kv => kv
        | _ => exprKeyStr key
      collectParamsAux rest args (kwInsert kwargs key_name v)
    | .kwPair none _ => collectParamsAux rest args kwargs
    | e => collectParamsAux rest (e :: args) kwargs

/-- Positional args and keyword dict of a call's parameter list. -/
def collectParams (params : List UExpr) :
    List UExpr × List (String × UExpr) :=
  collectParamsAux params [] []

/-- `FixBreaksPass.check_method_call`: the statement must be an `ExprStmt`
whose expression is a `FuncCall` on an `AtomTrailer`; the method name comes
from the trailer's `right` node's `value` attribute and must be truthy.
Returns `(target object, method name, positional args, keyword dict)`. -/
def check_method_call (node : UStmt) :
    Option (UExpr × String × List UExpr × List (String × UExpr)) :=
  match node with
  | .exprStmt (.funcCall (.atomTrailer tgt right) params) =>
    match exprValueAttr right with
    | none => none
    | some mname =>
      if mname = "" then none
      else
        let aw := collectParams params
        some (tgt, mname, aw.1, aw.2)
  | _ => none

/-- `FixBreaksPass.check_same_lhs`: both statements are assignments whose
first target is a `Name` with the same value.  (An assignment with an empty
target list would raise `IndexError` in Python; such statements are
excluded by `branchWF`.) -/
def check_same_lhs (assign_a assign_b : UStmt) : Option String :=
  match assign_a, assign_b with
  | .assignment (.name va :: _) _, .assignment (.name vb :: _) _ =>
    if va = vb then some va else none
  | _, _ => none

/-- `FixBreaksPass.extract_expressions`: extract the condition and the two
branch expressions into `__cond` / `__true_val` / `__false_val` temporaries
and return the temp assignments plus references to the temporaries. -/
def extract_expressions (condition true_expr false_expr : UExpr) :
    List UStmt × UExpr × UExpr × UExpr :=
  ([UStmt.assignment [.name "__cond"] condition,
    UStmt.assignment [.name "__true_val"] true_expr,
    UStmt.assignment [.name "__false_val"] false_expr],
   .name "__cond", .name "__true_val", .name "__false_val")

/-- The `torch.where(cond, t, f)` call node the pass builds. -/
def torchWhereCall (c t f : UExpr) : UExpr :=
  .funcCall (.atomTrailer (.name "torch") (.name "where")) [c, t, f]

/-- First-argument string extraction of case 3: `a_args[0].value` for a
`String`, `a_args[0].strings[0].value` for a `MultiString` (an empty
`MultiString` would raise in Python; excluded by `branchWF`). -/
def firstArgStr : UExpr → Option String
  | .strLit v => some v
  | .multiStr (s :: _) => some s
  | _ => none

/-- `tmp_name_value` of case 3: `"__" + value` for a `String` first
argument, `"__temp"` otherwise. -/
def tmpNameValue : UExpr → String
  | .strLit v => "__" ++ v
  | _ => "__temp"

/-- `set(a_kwargs.keys()) == set(b_kwargs.keys())`. -/
def sameKeySet (a b : List (String × UExpr)) : Bool :=
  (a.map (·.1)).all (fun k => (b.map (·.1)).contains k) &&
  (b.map (·.1)).all (fun k => (a.map (·.1)).contains k)

/-- The `if`/`elif` chain of `FixBreaksPass.exit_if_stmt` on the two
single-statement branches; `some stmts` means the if-statement is replaced
by `stmts` (`replace_node`), `none` means it is left untouched. -/
def exitIfCore (condition : UExpr) (a0 b0 : UStmt) : Option (List UStmt) :=
  match a0, b0 with
  | .assignment ta av, .assignment tb bv =>
    match check_same_lhs (.assignment ta av) (.assignment tb bv) with
    | some lhsv =>
      let ex := extract_expressions condition av bv
      some (ex.1 ++
        [UStmt.assignment [.name lhsv] (torchWhereCall ex.2.1 ex.2.2.1 ex.2.2.2)])
    | none => none
  | .returnStmt ae, .returnStmt be =>
    match ae, be with
    | some aexpr, some bexpr =>
      let ex := extract_expressions condition aexpr bexpr
      some (ex.1 ++
        [UStmt.returnStmt (some (torchWhereCall ex.2.1 ex.2.2.1 ex.2.2.2))])
    | _, _ => none
  | .exprStmt ea, .exprStmt eb =>
    match check_method_call (.exprStmt ea), check_method_call (.exprStmt eb) with
    | some ac, some bc =>
      if ac.2.1 = bc.2.1 && sameKeySet ac.2.2.2 bc.2.2.2 then
        match ac.2.2.1, bc.2.2.1 with
        | fa :: sa :: _, fb :: sb :: _ =>
          let first_arg_same : Bool :=
            match firstArgStr fa, firstArgStr fb with
            | some astr, some bstr => decide (astr = bstr)
            | _, _ => false
          if first_arg_same then
            let ex := extract_expressions condition sa sb
            let tmpv := tmpNameValue fa
            let result_assign :=
              UStmt.assignment [.name tmpv]
                (torchWhereCall ex.2.1 ex.2.2.1 ex.2.2.2)
            let kwargs_nodes :=
              ac.2.2.2.map fun kv => UExpr.kwPair (some (.name kv.1)) kv.2
            let method_call :=
              UExpr.funcCall (.atomTrailer ac.1 (.name ac.2.1))
                ([fa, .name tmpv] ++ kwargs_nodes)
            some (ex.1 ++ [result_assign, UStmt.exprStmt method_call])
          else none
        | _, _ => none
      else none
    | _, _ => none
  | _, _ => none

/-- `FixBreaksPass.exit_if_stmt`: transform only an if-statement carrying
the detector's dynamic-control-flow-break flag whose two branches each
contain exactly one statement; `none` = the node is left untouched. -/
def exit_if_stmt (node : UStmt) : Option (List UStmt) :=
  match node with
  | .ifStmt condition body elseBody hasBreak =>
    if !hasBreak then none
    else
      match body, elseBody with
      | [a0], some [b0] => exitIfCore condition a0 b0
      | _, _ => none
  | _ => none

/-- `replace_node` semantics of the pass on a statement list: a transformed
if-statement is replaced by its replacement statements; everything else
stays in place. -/
def fixBreaksOnBody : List UStmt → List UStmt
  | [] => []
  | s :: rest =>
    (match exit_if_stmt s with
     | some out => out
     | none => [s]) ++ fixBreaksOnBody rest

/-- In the exit-if-stmt case 3 semantics, the method-call target of case 3
uses the original `AtomTrailer`, so the trailer rebuilt here must match the
source's `a0.expr.target`; `check_method_call` guarantees the expression is
such a call. -/
def methodCallShape (s : UStmt) : Bool :=
  (check_method_call s).isSome

/-- The recognised shape of the claim: two assignments to the same target,
two returns with expressions, or two matching method calls (same method
name, same keyword-key set, at least two positional arguments each, and
equal string first arguments). -/
def matchingMethodCalls (a0 b0 : UStmt) : Bool :=
  match check_method_call a0, check_method_call b0 with
  | some ac, some bc =>
    (ac.2.1 = bc.2.1 && sameKeySet ac.2.2.2 bc.2.2.2) &&
    (match ac.2.2.1, bc.2.2.1 with
     | fa :: _ :: _, fb :: _ :: _ =>
       match firstArgStr fa, firstArgStr fb with
       | some astr, some bstr => decide (astr = bstr)
       | _, _ => false
     | _, _ => false)
  | _, _ => false

/-- "two assignments to the same target" of the claim. -/
def sameTargetAssigns (a0 b0 : UStmt) : Bool :=
  (check_same_lhs a0 b0).isSome

/-- "two returns with expressions" of the claim. -/
def bothReturnsWithExprs : UStmt → UStmt → Bool
  | .returnStmt (some _), .returnStmt (some _) => true
  | _, _ => false

/-- A branch-statement pair of one of the recognised shapes. -/
def recognizedShape (a0 b0 : UStmt) : Bool :=
  sameTargetAssigns a0 b0 || bothReturnsWithExprs a0 b0 ||
    matchingMethodCalls a0 b0

/-- Well-formedness of a branch statement: exactly the statements on which
the Python pass would not raise (`target[0]` on an assignment,
`strings[0]` on a `MultiString` first argument). -/
def branchWF (s : UStmt) : Bool :=
  match s with
  | .assignment ts _ => !ts.isEmpty
  | .exprStmt (.funcCall _ params) =>
    match (collectParams params).1 with
    | .multiStr [] :: _ => false
    | _ => true
  | _ => true

/-! ## Derived notions used by the theorems -/

/-- Whether the parser selected for `path` reports at least one error on
`src` (the `had_error` computation of `parse_str`). -/
def hadErrorOf (env : Env) (src path : String) : Bool :=
  decide (0 < (env.parse (selectParser path) src path).errors_had.length)

/-- The module object the selected parser produces for `(src, path)`. -/
def parsedModOf (env : Env) (src path : String) : ModData :=
  { mod_path := path,
    has_syntax_errors := hadErrorOf env src path,
    stub_only := false,
    annexable_by := (env.parse (selectParser path) src path).annexable_by,
    py_bytecode := .noneV, impl_mod := [], test_mod := [] }

/-- Whether compiling `p` from its file (as the annex pass does,
`use_str=None`) parses without errors. -/
def parseOk (env : Env) (p : String) : Bool :=
  !hadErrorOf env (env.read_file p) p

/-- The passes of the code-generation schedules (including the three fixup
passes the code-generation phase inserts). -/
def isCgenPass : PassName → Bool
  | .esastGen | .pyastGen | .pyJacAstLink | .pyBytecodeGen => true
  | .catchBreaks | .fixDynBreaks | .fixSEBreaks => true
  | _ => false

/-- No code-generation pass execution appears in the trace. -/
def cgenFree (tr : List Ev) : Bool :=
  tr.all fun e =>
    match e with
    | .passRun p _ => !isCgenPass p
    | _ => true

/-- No disk-cache access appears in the trace. -/
def diskFree (tr : List Ev) : Bool :=
  tr.all fun e =>
    match e with
    | .diskGet _ _ => false
    | .diskPut _ _ => false
    | _ => true

/-- No main-module adoption appears in the trace. -/
def noAdopt (tr : List Ev) : Bool :=
  tr.all fun e =>
    match e with
    | .adoptMain _ => false
    | _ => true

/-- Every disk-cache access in the trace carries the given mode flag. -/
def diskEvsMode (minimal : Bool) (tr : List Ev) : Bool :=
  tr.all fun e =>
    match e with
    | .diskGet _ m => m == minimal
    | .diskPut _ m => m == minimal
    | _ => true

/-- Well-formedness of a whole branch body (see `branchWF`). -/
def branchesWF : List UStmt → Bool
  | [] => true
  | s :: rest => branchWF s && branchesWF rest

/-- An event predicate bundled with proofs that it accepts every event the
compile family can emit while code generation is suppressed (used to state
trace invariants uniformly). -/
structure EvPred where
  P : Ev → Bool
  hpr : ∀ k p, P (Ev.parserRun k p) = true
  hhub : ∀ p, P (Ev.hubInsertEv p) = true
  had : ∀ p, P (Ev.adoptMain p) = true
  hcc : ∀ p b1 b2, P (Ev.compileCall p b1 b2) = true
  hpass : ∀ q p, isCgenPass q = false → P (Ev.passRun q p) = true

/-- The `cgenFree` predicate as an `EvPred`. -/
def cgenPred : EvPred where
  P := fun e =>
    match e with
    | .passRun p _ => !isCgenPass p
    | _ => true
  hpr := fun _ _ => rfl
  hhub := fun _ => rfl
  had := fun _ => rfl
  hcc := fun _ _ _ => rfl
  hpass := fun q _ h => by simp [h]

/-- The `diskFree` predicate as an `EvPred`. -/
def diskPred : EvPred where
  P := fun e =>
    match e with
    | .diskGet _ _ => false
    | .diskPut _ _ => false
    | _ => true
  hpr := fun _ _ => rfl
  hhub := fun _ => rfl
  had := fun _ => rfl
  hcc := fun _ _ _ => rfl
  hpass := fun _ _ _ => rfl

/-! ## Concrete environments for witnesses and counterexamples -/

/-- A parser result annex-marking by extension, never failing; one bytecode
blob `[7]` for every module; no annex files anywhere; identity path
normalisation. -/
def envOk : Env :=
  { read_file := fun _ => "src",
    parse := fun _ _ p =>
      { errors_had := [],
        annexable_by := endsWithP p ".impl.jac" || endsWithP p ".test.jac" },
    discover_annex_files := fun _ _ => [],
    gen_bytecode := fun _ => [7],
    unmarshal := fun b => b.headD 0,
    norm := fun s => s,
    jaclang_root := "/jl" }

/-- Like `envOk` but every parse reports one error. -/
def envErr : Env :=
  { envOk with parse := fun _ _ _ => { errors_had := ["bad"], annexable_by := false } }

/-- Like `envOk` but the base module `b.jac` has one implementation annex
file `b.impl.jac` (and nothing else has annexes). -/
def envAnnex : Env :=
  { envOk with
    discover_annex_files := fun p suf =>
      if p = "b.jac" && suf = ".impl.jac" then ["b.impl.jac"] else [] }

/-- A program whose main module is already real (not a stub). -/
def progMainReal : ProgState :=
  { freshProg with main_stub := false, main_path := some "main.jac" }

/-- A base module for the annex-pass witnesses: a real (non-stub, non-annex)
`.jac` module. -/
def modBase : ModData :=
  { mod_path := "b.jac", has_syntax_errors := false, stub_only := false,
    annexable_by := false, py_bytecode := .noneV,
    impl_mod := [], test_mod := [] }

/-- A registry module whose artifact slot is populated with a non-`bytes`
object. -/
def modOther : ModData :=
  { mod_path := "a.jac", has_syntax_errors := false, stub_only := false,
    annexable_by := false, py_bytecode := .otherV 0,
    impl_mod := [], test_mod := [] }

/-- A program whose registry holds `modOther` under its path. -/
def progOther : ProgState :=
  { freshProg with hub := [("a.jac", modOther)] }

/-- A router state with one caller program (id 0) and no internal program
constructed yet. -/
def gUser : JacCompiler.GState :=
  { internal_prog := none, next_id := 1, progs := [(0, freshProg)] }

/-!
# Theorems

## Basic lemmas about passes, schedules and the registry
-/

theorem applyPass_mod_path (env : Env) (p : PassName) (m : ModData) :
    (applyPass env p m).mod_path = m.mod_path := by
  cases p <;> rfl

theorem applyPass_has_syntax_errors (env : Env) (p : PassName) (m : ModData) :
    (applyPass env p m).has_syntax_errors = m.has_syntax_errors := by
  cases p <;> rfl

theorem applyPass_py_bytecode (env : Env) (p : PassName) (m : ModData)
    (h : p ≠ PassName.pyBytecodeGen) :
    (applyPass env p m).py_bytecode = m.py_bytecode := by
  cases p <;> first | rfl | exact absurd rfl h

theorem run_schedule_mod_path (env : Env) (sched : List PassName) (m : ModData) :
    (run_schedule env sched m).1.mod_path = m.mod_path := by
  induction sched generalizing m with
  | nil => rfl
  | cons p rest ih =>
    simp only [run_schedule]
    rw [ih]
    exact applyPass_mod_path env p m

theorem run_schedule_has_syntax_errors (env : Env) (sched : List PassName)
    (m : ModData) :
    (run_schedule env sched m).1.has_syntax_errors = m.has_syntax_errors := by
  induction sched generalizing m with
  | nil => rfl
  | cons p rest ih =>
    simp only [run_schedule]
    rw [ih]
    exact applyPass_has_syntax_errors env p m

theorem run_schedule_trace (env : Env) (sched : List PassName) (m : ModData) :
    (run_schedule env sched m).2 = sched.map (fun p => Ev.passRun p m.mod_path) := by
  induction sched generalizing m with
  | nil => rfl
  | cons p rest ih =>
    simp only [run_schedule, List.map_cons]
    rw [ih, applyPass_mod_path]

theorem run_schedule_py_bytecode (env : Env) (sched : List PassName) (m : ModData)
    (h : PassName.pyBytecodeGen ∉ sched) :
    (run_schedule env sched m).1.py_bytecode = m.py_bytecode := by
  induction sched generalizing m with
  | nil => rfl
  | cons p rest ih =>
    simp only [run_schedule]
    rw [ih _ (fun hm => h (List.mem_cons_of_mem p hm)),
      applyPass_py_bytecode env p m (fun hp => h (hp ▸ List.mem_cons_self p rest))]

theorem hubLookup_hubInsert_self (h : List (String × ModData)) (p : String)
    (m : ModData) : hubLookup (hubInsert h p m) p = some m := by
  induction h with
  | nil => simp [hubInsert, hubLookup]
  | cons kv rest ih =>
    by_cases hk : kv.1 = p <;> simp [hubInsert, hubLookup, hk, ih]

theorem hubLookup_hubInsert_ne (h : List (String × ModData)) (p k : String)
    (m : ModData) (hne : k ≠ p) :
    hubLookup (hubInsert h p m) k = hubLookup h k := by
  have hpk : ¬ p = k := fun he => hne he.symm
  induction h with
  | nil => simp [hubInsert, hubLookup, hpk]
  | cons kv rest ih =>
    by_cases hk : kv.1 = p
    · have hkk : ¬ kv.1 = k := by rw [hk]; exact hpk
      simp [hubInsert, hubLookup, hk, hkk, hpk]
    · simp only [hubInsert, hubLookup, hk, if_false, ite_false]
      rw [ih]

theorem hubLookup_hubInsert_mono (h : List (String × ModData)) (p k : String)
    (m : ModData) (hs : hubLookup h k ≠ none) :
    hubLookup (hubInsert h p m) k ≠ none := by
  by_cases hk : k = p
  · subst hk
    rw [hubLookup_hubInsert_self]
    exact Option.some_ne_none m
  · rw [hubLookup_hubInsert_ne h p k m hk]
    exact hs

theorem progsLookup_progsInsert_ne (ps : List (Nat × ProgState)) (i j : Nat)
    (st : ProgState) (hne : i ≠ j) :
    JacCompiler.progsLookup (JacCompiler.progsInsert ps j st) i =
      JacCompiler.progsLookup ps i := by
  have hji : ¬ j = i := fun he => hne he.symm
  induction ps with
  | nil => simp [JacCompiler.progsInsert, JacCompiler.progsLookup, hji]
  | cons kv rest ih =>
    by_cases hk : kv.1 = j
    · have hki : ¬ kv.1 = i := by rw [hk]; exact hji
      simp [JacCompiler.progsInsert, JacCompiler.progsLookup, hk, hki, hji]
    · simp only [JacCompiler.progsInsert, JacCompiler.progsLookup, hk,
        if_false, ite_false]
      rw [ih]

/-! ## The dispatch of `parse_str` -/

theorem parse_str_dispatch (env : Env) (src path : String) :
    (if endsWithP path ".py" || endsWithP path ".pyi" then
      (ParserKind.pyAst, env.parse .pyAst src path)
    else if endsWithP path ".js" || endsWithP path ".ts" ||
        endsWithP path ".jsx" || endsWithP path ".tsx" then
      (ParserKind.tsParser, env.parse .tsParser src path)
    else
      (ParserKind.jacParser, env.parse .jacParser src path)) =
    (selectParser path, env.parse (selectParser path) src path) := by
  cases h1 : endsWithP path ".py" || endsWithP path ".pyi" <;>
    cases h2 : endsWithP path ".js" || endsWithP path ".ts" ||
      endsWithP path ".jsx" || endsWithP path ".tsx" <;>
    simp [selectParser, h1, h2]

/-- The single-equation characterisation of `parse_str` in terms of
`hadErrorOf` / `parsedModOf` / `selectParser`. -/
theorem parse_str_eq (env : Env) (cf : AnnexCF) (st : ProgState)
    (src path : String) :
    parse_str env cf st src path =
      (if hadErrorOf env src path then
        (parsedModOf env src path, st, [Ev.parserRun (selectParser path) path])
      else
        let ra := jacAnnexPass env cf
          (insertedState (adoptState st path) (parsedModOf env src path))
          (parsedModOf env src path)
        (ra.1, insertedState ra.2.1 ra.1,
         [Ev.parserRun (selectParser path) path] ++ adoptTrace st path ++
           [Ev.hubInsertEv (parsedModOf env src path).mod_path] ++ ra.2.2)) := by
  unfold parse_str
  rw [parse_str_dispatch]
  rfl

/-! ## Preservation lemmas for the annex pass -/

theorem jacAnnexPass_mod_path (env : Env) (cf : AnnexCF) (st : ProgState)
    (m : ModData) : (jacAnnexPass env cf st m).1.mod_path = m.mod_path := by
  by_cases hg : (m.stub_only || !(endsWithP m.mod_path ".jac") || m.annexable_by)
    = true <;> simp [jacAnnexPass, hg]

theorem jacAnnexPass_has_syntax_errors (env : Env) (cf : AnnexCF)
    (st : ProgState) (m : ModData) :
    (jacAnnexPass env cf st m).1.has_syntax_errors = m.has_syntax_errors := by
  by_cases hg : (m.stub_only || !(endsWithP m.mod_path ".jac") || m.annexable_by)
    = true <;> simp [jacAnnexPass, hg]

theorem jacAnnexPass_py_bytecode (env : Env) (cf : AnnexCF) (st : ProgState)
    (m : ModData) :
    (jacAnnexPass env cf st m).1.py_bytecode = m.py_bytecode := by
  by_cases hg : (m.stub_only || !(endsWithP m.mod_path ".jac") || m.annexable_by)
    = true <;> simp [jacAnnexPass, hg]

theorem jacAnnexPass_annex_ev (env : Env) (cf : AnnexCF) (st : ProgState)
    (m : ModData) :
    Ev.passRun .jacAnnex m.mod_path ∈ (jacAnnexPass env cf st m).2.2 := by
  by_cases hg : (m.stub_only || !(endsWithP m.mod_path ".jac") || m.annexable_by)
    = true <;> simp [jacAnnexPass, hg]

/-! ## Generic trace predicates over the compile family

The spine below proves, for any event predicate `P` that accepts parser
runs, registry insertions, adoptions, compile calls and non-codegen pass
runs, that the traces of `parse_str` and of a codegen-suppressed `compile`
satisfy `P` throughout (annex sub-compiles always run with
`no_cgen=True`). -/

theorem loadAnnexList_all (Q : EvPred) (cf : AnnexCF) (st : ProgState)
    (paths : List String)
    (hcf : ∀ f, cf = some f → ∀ st2 p e, e ∈ (f st2 p).2.2 → Q.P e = true) :
    ∀ e ∈ (loadAnnexList cf st paths).2.2, Q.P e = true := by
  induction paths generalizing st with
  | nil => intro e he; exact absurd he (List.not_mem_nil e)
  | cons p rest ih =>
    cases cf with
    | none => intro e he; exact absurd he (List.not_mem_nil e)
    | some f =>
      intro e he
      simp only [loadAnnexList, List.mem_append] at he
      rcases he with he | he
      · exact hcf f rfl st p e he
      · exact ih _ e he

theorem jacAnnexPass_all (Q : EvPred) (env : Env) (cf : AnnexCF)
    (st : ProgState) (m : ModData)
    (hcf : ∀ f, cf = some f → ∀ st2 p e, e ∈ (f st2 p).2.2 → Q.P e = true) :
    ∀ e ∈ (jacAnnexPass env cf st m).2.2, Q.P e = true := by
  have hJ : Q.P (Ev.passRun .jacAnnex m.mod_path) = true := Q.hpass _ _ rfl
  intro e he
  by_cases hg : (m.stub_only || !(endsWithP m.mod_path ".jac") || m.annexable_by)
    = true
  · simp only [jacAnnexPass, hg, if_true, ite_true, List.mem_singleton] at he
    exact he ▸ hJ
  · simp [jacAnnexPass, hg] at he
    rcases he with he | he | he
    · exact he ▸ hJ
    · exact loadAnnexList_all Q cf _ _ hcf e he
    · exact loadAnnexList_all Q cf _ _ hcf e he

theorem parse_str_all (Q : EvPred) (env : Env) (cf : AnnexCF) (st : ProgState)
    (src path : String)
    (hcf : ∀ f, cf = some f → ∀ st2 p e, e ∈ (f st2 p).2.2 → Q.P e = true) :
    ∀ e ∈ (parse_str env cf st src path).2.2, Q.P e = true := by
  rw [parse_str_eq]
  intro e he
  by_cases hhe : hadErrorOf env src path = true
  · simp only [hhe, if_true, ite_true, List.mem_singleton] at he
    exact he ▸ Q.hpr _ _
  · by_cases hm : st.main_stub = true
    · simp [hhe, hm, adoptTrace] at he
      rcases he with he | he | he | he
      · exact he ▸ Q.hpr _ _
      · exact he ▸ Q.had _
      · exact he ▸ Q.hhub _
      · exact jacAnnexPass_all Q env cf _ _ hcf e he
    · simp [hhe, hm, adoptTrace] at he
      rcases he with he | he | he
      · exact he ▸ Q.hpr _ _
      · exact he ▸ Q.hhub _
      · exact jacAnnexPass_all Q env cf _ _ hcf e he

theorem compileBody_nc_all (Q : EvPred) (env : Env) (cf : AnnexCF)
    (st : ProgState) (path : String) (us : Option String) (tc so mi : Bool)
    (hcf : ∀ f, cf = some f → ∀ st2 p e, e ∈ (f st2 p).2.2 → Q.P e = true) :
    ∀ e ∈ (compileBody env cf st path us true tc so mi).2.2, Q.P e = true := by
  have hir : ∀ (sched : List PassName), (∀ q ∈ sched, isCgenPass q = false) →
      ∀ (m : ModData) (e : Ev), e ∈ (run_schedule env sched m).2 →
        Q.P e = true := by
    intro sched hq m e hme
    rw [run_schedule_trace] at hme
    rcases List.mem_map.mp hme with ⟨q, hqm, rfl⟩
    exact Q.hpass q _ (hq q hqm)
  have hirS : ∀ q ∈ irSchedOf so mi, isCgenPass q = false := by
    cases so <;> cases mi <;> decide
  have htcS : ∀ q ∈ get_type_check_sched, isCgenPass q = false := by decide
  intro e he
  by_cases htc : (tc && !mi) = true
  · simp [compileBody, htc] at he
    rcases he with he | he | he | he
    · exact he ▸ Q.hcc _ _ _
    · exact parse_str_all Q env cf st _ path hcf e he
    · exact hir _ hirS _ e he
    · exact hir _ htcS _ e he
  · simp [compileBody, htc] at he
    rcases he with he | he | he
    · exact he ▸ Q.hcc _ _ _
    · exact parse_str_all Q env cf st _ path hcf e he
    · exact hir _ hirS _ e he

theorem annexCompile_all (Q : EvPred) (env : Env) : ∀ (n : Nat)
    (f : ProgState → String → DriveRes), annexCompile env n = some f →
    ∀ st p e, e ∈ (f st p).2.2 → Q.P e = true := by
  intro n
  induction n with
  | zero => intro f hf; exact absurd hf (by simp [annexCompile])
  | succ n ih =>
    intro f hf st p
    have hf2 : f = fun st p =>
        compileBody env (annexCompile env n) st p none true false false true := by
      simpa [annexCompile] using hf.symm
    rw [hf2]
    exact compileBody_nc_all Q env _ st p none false false true ih

theorem parse_str_fuel_all (Q : EvPred) (env : Env) (fuel : Nat)
    (st : ProgState) (src path : String) :
    ∀ e ∈ (parse_str env (annexCompile env fuel) st src path).2.2,
      Q.P e = true :=
  parse_str_all Q env _ st src path (annexCompile_all Q env fuel)

/-! ## Component lemmas for `parse_str` and `compileBody` results -/

theorem parse_str_fst_mod_path (env : Env) (cf : AnnexCF) (st : ProgState)
    (src path : String) :
    (parse_str env cf st src path).1.mod_path = path := by
  rw [parse_str_eq]
  by_cases he : hadErrorOf env src path = true <;>
    simp [he, jacAnnexPass_mod_path, parsedModOf]

theorem parse_str_fst_has_syntax_errors (env : Env) (cf : AnnexCF)
    (st : ProgState) (src path : String) :
    (parse_str env cf st src path).1.has_syntax_errors =
      hadErrorOf env src path := by
  rw [parse_str_eq]
  by_cases he : hadErrorOf env src path = true <;>
    simp [he, jacAnnexPass_has_syntax_errors, parsedModOf]

theorem parse_str_fst_py_bytecode (env : Env) (cf : AnnexCF) (st : ProgState)
    (src path : String) :
    (parse_str env cf st src path).1.py_bytecode = BCVal.noneV := by
  rw [parse_str_eq]
  by_cases he : hadErrorOf env src path = true <;>
    simp [he, jacAnnexPass_py_bytecode, parsedModOf]

theorem parse_str_of_error (env : Env) (cf : AnnexCF) (st : ProgState)
    (src path : String) (he : hadErrorOf env src path = true) :
    parse_str env cf st src path =
      (parsedModOf env src path, st, [Ev.parserRun (selectParser path) path]) := by
  rw [parse_str_eq]
  simp [he]

theorem parse_str_hub_self (env : Env) (cf : AnnexCF) (st : ProgState)
    (src path : String) (he : hadErrorOf env src path = false) :
    hubLookup (parse_str env cf st src path).2.1.hub path ≠ none := by
  rw [parse_str_eq]
  simp only [he, Bool.false_eq_true, if_false, ite_false, insertedState]
  rw [jacAnnexPass_mod_path]
  simp [parsedModOf, hubLookup_hubInsert_self]

/-! ## The cancellation-free adoption invariant: if the main module is no
longer a stub, no call of the compile family adopts a new main module. -/

theorem loadAnnexList_main_stub (cf : AnnexCF) (st : ProgState)
    (paths : List String)
    (hcf : ∀ f, cf = some f → ∀ st2 q, st2.main_stub = false →
      (f st2 q).2.1.main_stub = false ∧
        ∀ x, Ev.adoptMain x ∉ (f st2 q).2.2)
    (hst : st.main_stub = false) :
    (loadAnnexList cf st paths).2.1.main_stub = false ∧
      ∀ x, Ev.adoptMain x ∉ (loadAnnexList cf st paths).2.2 := by
  induction paths generalizing st with
  | nil => exact ⟨hst, fun x hx => absurd hx (List.not_mem_nil _)⟩
  | cons p rest ih =>
    cases cf with
    | none => exact ⟨hst, fun x hx => absurd hx (List.not_mem_nil _)⟩
    | some f =>
      have h1 := hcf f rfl st p hst
      have h2 := ih _ h1.1
      refine ⟨h2.1, fun x hx => ?_⟩
      simp only [loadAnnexList, List.mem_append] at hx
      rcases hx with hx | hx
      · exact h1.2 x hx
      · exact h2.2 x hx

theorem jacAnnexPass_main_stub (env : Env) (cf : AnnexCF) (st : ProgState)
    (m : ModData)
    (hcf : ∀ f, cf = some f → ∀ st2 q, st2.main_stub = false →
      (f st2 q).2.1.main_stub = false ∧
        ∀ x, Ev.adoptMain x ∉ (f st2 q).2.2)
    (hst : st.main_stub = false) :
    (jacAnnexPass env cf st m).2.1.main_stub = false ∧
      ∀ x, Ev.adoptMain x ∉ (jacAnnexPass env cf st m).2.2 := by
  by_cases hg : (m.stub_only || !(endsWithP m.mod_path ".jac") || m.annexable_by)
    = true
  · refine ⟨by simp [jacAnnexPass, hg, hst], fun x hx => ?_⟩
    simp [jacAnnexPass, hg] at hx
  · have h1 := loadAnnexList_main_stub cf st
      (env.discover_annex_files m.mod_path ".impl.jac") hcf hst
    have h2 := loadAnnexList_main_stub cf _
      (env.discover_annex_files m.mod_path ".test.jac") hcf h1.1
    refine ⟨by simp [jacAnnexPass, hg]; exact h2.1, fun x hx => ?_⟩
    simp [jacAnnexPass, hg] at hx
    rcases hx with hx | hx
    · exact h1.2 x hx
    · exact h2.2 x hx

theorem parse_str_main_stub (env : Env) (cf : AnnexCF) (st : ProgState)
    (src path : String)
    (hcf : ∀ f, cf = some f → ∀ st2 q, st2.main_stub = false →
      (f st2 q).2.1.main_stub = false ∧
        ∀ x, Ev.adoptMain x ∉ (f st2 q).2.2)
    (hst : st.main_stub = false) :
    (parse_str env cf st src path).2.1.main_stub = false ∧
      ∀ x, Ev.adoptMain x ∉ (parse_str env cf st src path).2.2 := by
  rw [parse_str_eq]
  by_cases he : hadErrorOf env src path = true
  · refine ⟨by simp [he, hst], fun x hx => ?_⟩
    simp [he] at hx
  · have hA := jacAnnexPass_main_stub env cf
      (insertedState (adoptState st path) (parsedModOf env src path))
      (parsedModOf env src path) hcf
      (by simp [insertedState, adoptState, hst])
    refine ⟨?_, fun x hx => ?_⟩
    · simp only [he, Bool.false_eq_true, if_false, ite_false, insertedState]
      exact hA.1
    · simp [he, adoptTrace, hst] at hx
      exact hA.2 x hx

theorem compileBody_main_stub (env : Env) (cf : AnnexCF) (st : ProgState)
    (path : String) (us : Option String) (nc tc so mi : Bool)
    (hcf : ∀ f, cf = some f → ∀ st2 q, st2.main_stub = false →
      (f st2 q).2.1.main_stub = false ∧
        ∀ x, Ev.adoptMain x ∉ (f st2 q).2.2)
    (hst : st.main_stub = false) :
    (compileBody env cf st path us nc tc so mi).2.1.main_stub = false ∧
      ∀ x, Ev.adoptMain x ∉ (compileBody env cf st path us nc tc so mi).2.2 := by
  have hP := parse_str_main_stub env cf st (keepStrOf env us path) path hcf hst
  have hmap : ∀ (sched : List PassName) (m : ModData) (x : String),
      Ev.adoptMain x ∉ (run_schedule env sched m).2 := by
    intro sched m x hx
    rw [run_schedule_trace] at hx
    rcases List.mem_map.mp hx with ⟨q, _, hq⟩
    exact Ev.noConfusion hq
  constructor
  · simp only [compileBody]
    by_cases hse : (parse_str env cf st (keepStrOf env us path) path).1.has_syntax_errors
      = true <;> simp [hse, hP.1]
  · intro x hx
    simp only [compileBody, List.mem_cons, List.mem_append] at hx
    rcases hx with (((hx | hx) | hx) | hx) | hx
    · exact Ev.noConfusion hx
    · exact hP.2 x hx
    · exact hmap _ _ x hx
    · by_cases htc : (tc && !mi) = true <;> simp only [htc, if_true, ite_true,
        if_false, ite_false] at hx
      · exact hmap _ _ x hx
      · exact absurd hx (List.not_mem_nil _)
    · by_cases hcg : (!(if (tc && !mi) = true then
          run_schedule env get_type_check_sched
            (run_schedule env (irSchedOf so mi)
              (parse_str env cf st (keepStrOf env us path) path).1).1
        else
          ((run_schedule env (irSchedOf so mi)
              (parse_str env cf st (keepStrOf env us path) path).1).1,
            ([] : List Ev))).1.has_syntax_errors && !nc) = true <;>
        simp only [hcg, if_true, ite_true, if_false, ite_false] at hx
      · exact hmap _ _ x hx
      · exact absurd hx (List.not_mem_nil _)

theorem annexCompile_main_stub (env : Env) : ∀ (n : Nat)
    (f : ProgState → String → DriveRes), annexCompile env n = some f →
    ∀ st q, st.main_stub = false → (f st q).2.1.main_stub = false ∧
      ∀ x, Ev.adoptMain x ∉ (f st q).2.2 := by
  intro n
  induction n with
  | zero => intro f hf; exact absurd hf (by simp [annexCompile])
  | succ n ih =>
    intro f hf st q hst
    have hf2 : f = fun st p =>
        compileBody env (annexCompile env n) st p none true false false true := by
      simpa [annexCompile] using hf.symm
    rw [hf2]
    exact compileBody_main_stub env _ st q none true false false true ih hst

/-! ## Registry monotonicity: the compile family never removes entries -/

theorem adoptState_hub (st : ProgState) (path : String) :
    (adoptState st path).hub = st.hub := by
  by_cases hm : st.main_stub = true <;> simp [adoptState, hm]

theorem adoptState_main_stub (st : ProgState) (path : String) :
    (adoptState st path).main_stub = false ↔
      (st.main_stub = false ∨ st.main_stub = true) := by
  by_cases hm : st.main_stub = true <;> simp [adoptState, hm]

theorem loadAnnexList_hub_mono (cf : AnnexCF) (paths : List String) (k : String)
    (hcf : ∀ f, cf = some f → ∀ st2 q, hubLookup st2.hub k ≠ none →
      hubLookup (f st2 q).2.1.hub k ≠ none) :
    ∀ st, hubLookup st.hub k ≠ none →
      hubLookup (loadAnnexList cf st paths).2.1.hub k ≠ none := by
  induction paths with
  | nil => intro st hk; exact hk
  | cons p rest ih =>
    intro st hk
    cases cf with
    | none => exact hk
    | some f =>
      simp only [loadAnnexList]
      exact ih _ (hcf f rfl st p hk)

theorem jacAnnexPass_hub_mono (env : Env) (cf : AnnexCF) (m : ModData)
    (k : String)
    (hcf : ∀ f, cf = some f → ∀ st2 q, hubLookup st2.hub k ≠ none →
      hubLookup (f st2 q).2.1.hub k ≠ none) :
    ∀ st, hubLookup st.hub k ≠ none →
      hubLookup (jacAnnexPass env cf st m).2.1.hub k ≠ none := by
  intro st hk
  by_cases hg : (m.stub_only || !(endsWithP m.mod_path ".jac") || m.annexable_by)
    = true
  · simpa [jacAnnexPass, hg] using hk
  · simp only [jacAnnexPass, hg, if_false, ite_false]
    exact loadAnnexList_hub_mono cf _ k hcf _
      (loadAnnexList_hub_mono cf _ k hcf _ hk)

theorem parse_str_hub_mono (env : Env) (cf : AnnexCF) (src path k : String)
    (hcf : ∀ f, cf = some f → ∀ st2 q, hubLookup st2.hub k ≠ none →
      hubLookup (f st2 q).2.1.hub k ≠ none) :
    ∀ st, hubLookup st.hub k ≠ none →
      hubLookup (parse_str env cf st src path).2.1.hub k ≠ none := by
  intro st hk
  rw [parse_str_eq]
  by_cases he : hadErrorOf env src path = true
  · simpa [he] using hk
  · simp only [he, Bool.false_eq_true, if_false, ite_false, insertedState]
    refine hubLookup_hubInsert_mono _ _ _ _ ?_
    refine jacAnnexPass_hub_mono env cf _ k hcf _ ?_
    simp only [insertedState]
    refine hubLookup_hubInsert_mono _ _ _ _ ?_
    rw [adoptState_hub]
    exact hk

theorem compileBody_hub_mono (env : Env) (cf : AnnexCF) (path : String)
    (us : Option String) (nc tc so mi : Bool) (k : String)
    (hcf : ∀ f, cf = some f → ∀ st2 q, hubLookup st2.hub k ≠ none →
      hubLookup (f st2 q).2.1.hub k ≠ none) :
    ∀ st, hubLookup st.hub k ≠ none →
      hubLookup (compileBody env cf st path us nc tc so mi).2.1.hub k ≠ none := by
  intro st hk
  have hp := parse_str_hub_mono env cf (keepStrOf env us path) path k hcf st hk
  simp only [compileBody]
  by_cases hse : (parse_str env cf st (keepStrOf env us path) path).1.has_syntax_errors
    = true
  · simpa [hse] using hp
  · simp only [hse, Bool.false_eq_true, if_false, ite_false]
    exact hubLookup_hubInsert_mono _ _ _ _ hp

theorem annexCompile_hub_mono (env : Env) (k : String) : ∀ (n : Nat)
    (f : ProgState → String → DriveRes), annexCompile env n = some f →
    ∀ st q, hubLookup st.hub k ≠ none → hubLookup (f st q).2.1.hub k ≠ none := by
  intro n
  induction n with
  | zero => intro f hf; exact absurd hf (by simp [annexCompile])
  | succ n ih =>
    intro f hf st q hk
    have hf2 : f = fun st p =>
        compileBody env (annexCompile env n) st p none true false false true := by
      simpa [annexCompile] using hf.symm
    rw [hf2]
    exact compileBody_hub_mono env _ q none true false false true k ih st hk

theorem compileBody_hub_self (env : Env) (cf : AnnexCF) (st : ProgState)
    (path : String) (us : Option String) (nc tc so mi : Bool)
    (he : hadErrorOf env (keepStrOf env us path) path = false) :
    hubLookup (compileBody env cf st path us nc tc so mi).2.1.hub path ≠ none := by
  have h1 : (parse_str env cf st (keepStrOf env us path) path).1.has_syntax_errors
      = false := by
    rw [parse_str_fst_has_syntax_errors]; exact he
  have h2 := parse_str_hub_self env cf st (keepStrOf env us path) path he
  simp only [compileBody, h1, Bool.false_eq_true, if_false, ite_false]
  exact hubLookup_hubInsert_mono _ _ _ _ h2

/-! ## Component lemmas for `compileBody` results -/

theorem compileBody_fst_mod_path (env : Env) (cf : AnnexCF) (st : ProgState)
    (path : String) (us : Option String) (nc tc so mi : Bool) :
    (compileBody env cf st path us nc tc so mi).1.mod_path = path := by
  simp only [compileBody]
  split <;> split <;>
    simp [run_schedule_mod_path, parse_str_fst_mod_path]

theorem compileBody_fst_has_syntax_errors (env : Env) (cf : AnnexCF)
    (st : ProgState) (path : String) (us : Option String) (nc tc so mi : Bool) :
    (compileBody env cf st path us nc tc so mi).1.has_syntax_errors =
      hadErrorOf env (keepStrOf env us path) path := by
  simp only [compileBody]
  split <;> split <;>
    simp [run_schedule_has_syntax_errors, parse_str_fst_has_syntax_errors]

theorem compileBody_err_py_bytecode (env : Env) (cf : AnnexCF) (st : ProgState)
    (path : String) (us : Option String) (nc tc so mi : Bool)
    (he : hadErrorOf env (keepStrOf env us path) path = true) :
    (compileBody env cf st path us nc tc so mi).1.py_bytecode = BCVal.noneV := by
  have hnotir : PassName.pyBytecodeGen ∉ irSchedOf so mi := by
    cases so <;> cases mi <;> decide
  have hnottc : PassName.pyBytecodeGen ∉ get_type_check_sched := by decide
  have h3 : ∀ (r : ModData × List Ev),
      r.1.has_syntax_errors = true →
      ((if (!r.1.has_syntax_errors && !nc) = true then
        run_schedule env (codegenSchedOf mi) r.1 else (r.1, [])).1.py_bytecode
        = r.1.py_bytecode) := by
    intro r hr
    simp [hr]
  simp only [compileBody]
  rw [h3]
  · split <;>
      simp [run_schedule_py_bytecode _ _ _ hnottc,
        run_schedule_py_bytecode _ _ _ hnotir, parse_str_fst_py_bytecode]
  · split <;>
      simp [run_schedule_has_syntax_errors, parse_str_fst_has_syntax_errors, he]

/-- The full event trace of one `compileBody` call, as a function of the
parse outcome and the mode flags. -/
theorem compileBody_trace (env : Env) (cf : AnnexCF) (st : ProgState)
    (path : String) (us : Option String) (nc tc so mi : Bool) :
    (compileBody env cf st path us nc tc so mi).2.2 =
      Ev.compileCall path nc mi ::
        (parse_str env cf st (keepStrOf env us path) path).2.2 ++
        (irSchedOf so mi).map (fun q => Ev.passRun q path) ++
        (if (tc && !mi) = true then
          get_type_check_sched.map (fun q => Ev.passRun q path) else []) ++
        (if (!hadErrorOf env (keepStrOf env us path) path && !nc) = true then
          (codegenSchedOf mi).map (fun q => Ev.passRun q path) else []) := by
  simp only [compileBody]
  by_cases htc : (tc && !mi) = true <;>
    by_cases hcg : (!hadErrorOf env (keepStrOf env us path) path && !nc) = true <;>
    simp [htc, hcg, run_schedule_trace, run_schedule_mod_path,
      run_schedule_has_syntax_errors, parse_str_fst_mod_path,
      parse_str_fst_has_syntax_errors]

/-! ## The annex-loading loop -/

theorem loadAnnexList_some_fst (f : ProgState → String → DriveRes)
    (st : ProgState) (paths : List String) :
    (loadAnnexList (some f) st paths).1 = paths := by
  induction paths generalizing st with
  | nil => rfl
  | cons p rest ih => simp [loadAnnexList, ih]

theorem loadAnnexList_cc_mem (f : ProgState → String → DriveRes)
    (paths : List String)
    (hcc : ∀ st2 q, Ev.compileCall q true true ∈ (f st2 q).2.2) :
    ∀ st p, p ∈ paths →
      Ev.compileCall p true true ∈ (loadAnnexList (some f) st paths).2.2 := by
  induction paths with
  | nil => intro st p hp; exact absurd hp (List.not_mem_nil _)
  | cons q rest ih =>
    intro st p hp
    simp only [loadAnnexList, List.mem_append]
    rcases List.mem_cons.mp hp with hp | hp
    · exact Or.inl (hp ▸ hcc st q)
    · exact Or.inr (ih _ p hp)

theorem loadAnnexList_hub_of_ok (env : Env) (f : ProgState → String → DriveRes)
    (paths : List String)
    (hself : ∀ st2 q, parseOk env q = true →
      hubLookup (f st2 q).2.1.hub q ≠ none)
    (hmono : ∀ st2 q k, hubLookup st2.hub k ≠ none →
      hubLookup (f st2 q).2.1.hub k ≠ none) :
    ∀ st p, p ∈ paths → parseOk env p = true →
      hubLookup (loadAnnexList (some f) st paths).2.1.hub p ≠ none := by
  induction paths with
  | nil => intro st p hp; exact absurd hp (List.not_mem_nil _)
  | cons q rest ih =>
    intro st p hp hok
    simp only [loadAnnexList]
    rcases List.mem_cons.mp hp with hp | hp
    · subst hp
      exact loadAnnexList_hub_mono (some f) rest p
        (fun f2 hf2 st2 q2 hk => (Option.some.injEq _ _ ▸ hf2 : f = f2) ▸
          hmono st2 q2 p hk) _ (hself st p hok)
    · exact ih _ p hp hok

/-! ## Disk-access facts about `compile` and `get_bytecode` -/

theorem compile_diskFree (env : Env) (fuel : Nat) (st : ProgState)
    (path : String) (us : Option String) (nc tc so mi : Bool) :
    ∀ e ∈ (compile env fuel st path us nc tc so mi).2.2, diskPred.P e = true := by
  intro e he
  rw [compile, compileBody_trace] at he
  rcases List.mem_cons.mp he with he | he
  · exact he ▸ rfl
  · rcases List.mem_append.mp he with he | he
    rcases List.mem_append.mp he with he | he
    rcases List.mem_append.mp he with he | he
    · exact parse_str_fuel_all diskPred env fuel st _ path e he
    · rcases List.mem_map.mp he with ⟨q, _, rfl⟩; rfl
    · by_cases htc : (tc && !mi) = true
      · rw [if_pos htc] at he
        rcases List.mem_map.mp he with ⟨q, _, rfl⟩; rfl
      · rw [if_neg htc] at he
        exact absurd he (List.not_mem_nil e)
    · by_cases hcg : (!hadErrorOf env (keepStrOf env us path) path && !nc) = true
      · rw [if_pos hcg] at he
        rcases List.mem_map.mp he with ⟨q, _, rfl⟩; rfl
      · rw [if_neg hcg] at he
        exact absurd he (List.not_mem_nil e)

theorem get_bytecode_miss_disk_mode (env : Env) (fuel : Nat) (st : ProgState)
    (cache : BytecodeCache) (p : String) (mi : Bool) :
    diskEvsMode mi (get_bytecode_miss env fuel st cache p mi).2.2.2 = true := by
  have hconv : ∀ e, diskPred.P e = true →
      (fun e =>
        match e with
        | Ev.diskGet _ m => m == mi
        | Ev.diskPut _ m => m == mi
        | _ => true) e = true := by
    intro e hP
    cases e <;> simp_all [diskPred]
  rw [diskEvsMode, List.all_eq_true]
  intro e he
  rcases h2 : cache.getE (CacheKey.for_source env p mi) with _ | blob
  · simp only [get_bytecode_miss, h2] at he
    rcases h3 : (compile env fuel st p none false false false mi).1.py_bytecode
      with _ | b | t
    · simp only [h3, List.mem_append, List.mem_singleton] at he
      rcases he with he | he
      · simp [he]
      · exact hconv e (compile_diskFree env fuel st p none false false false mi e he)
    · by_cases hb : b.isEmpty = true
      · simp only [h3, hb, if_true, ite_true, List.mem_append,
          List.mem_singleton] at he
        rcases he with he | he
        · simp [he]
        · exact hconv e (compile_diskFree env fuel st p none false false false mi e he)
      · simp only [h3, hb, Bool.false_eq_true, if_false, ite_false,
          List.mem_append, List.mem_singleton] at he
        rcases he with (he | he) | he
        · simp [he]
        · exact hconv e (compile_diskFree env fuel st p none false false false mi e he)
        · simp [he]
    · simp only [h3, List.mem_append, List.mem_singleton] at he
      rcases he with he | he
      · simp [he]
      · exact hconv e (compile_diskFree env fuel st p none false false false mi e he)
  · simp only [get_bytecode_miss, h2, List.mem_singleton] at he
    simp [he]

/-! ## Code-generation pass occurrence in `compile` traces -/

theorem irSchedOf_noncgen (so mi : Bool) :
    ∀ q ∈ irSchedOf so mi, isCgenPass q = false := by
  cases so <;> cases mi <;> decide

theorem compile_trace_cgenFree (env : Env) (fuel : Nat) (st : ProgState)
    (path : String) (us : Option String) (nc tc so mi : Bool)
    (h : hadErrorOf env (keepStrOf env us path) path = true ∨ nc = true) :
    cgenFree (compile env fuel st path us nc tc so mi).2.2 = true := by
  rw [cgenFree, List.all_eq_true]
  intro e he
  rw [compile, compileBody_trace] at he
  rcases List.mem_cons.mp he with he | he
  · exact he ▸ rfl
  · rcases List.mem_append.mp he with he | he
    rcases List.mem_append.mp he with he | he
    rcases List.mem_append.mp he with he | he
    · exact parse_str_fuel_all cgenPred env fuel st _ path e he
    · rcases List.mem_map.mp he with ⟨q, hq, rfl⟩
      have hqn := irSchedOf_noncgen so mi q hq
      simp [cgenPred, hqn]
    · by_cases htc : (tc && !mi) = true
      · rw [if_pos htc] at he
        rcases List.mem_map.mp he with ⟨q, hq, rfl⟩
        have hall : ∀ r ∈ get_type_check_sched, isCgenPass r = false := by decide
        simp [cgenPred, hall q hq]
      · rw [if_neg htc] at he
        exact absurd he (List.not_mem_nil e)
    · have hcond : ¬ ((!hadErrorOf env (keepStrOf env us path) path && !nc)
          = true) := by
        rcases h with h | h <;> simp [h]
      rw [if_neg hcond] at he
      exact absurd he (List.not_mem_nil e)

theorem compile_cgen_run (env : Env) (fuel : Nat) (st : ProgState)
    (path : String) (us : Option String) (nc tc so mi : Bool)
    (he : hadErrorOf env (keepStrOf env us path) path = false)
    (hnc : nc = false) :
    ∀ q ∈ codegenSchedOf mi,
      Ev.passRun q path ∈ (compile env fuel st path us nc tc so mi).2.2 := by
  intro q hq
  rw [compile, compileBody_trace]
  refine List.mem_cons_of_mem _ (List.mem_append.mpr (Or.inr ?_))
  have hcond : (!hadErrorOf env (keepStrOf env us path) path && !nc) = true := by
    simp [he, hnc]
  rw [if_pos hcond]
  exact List.mem_map.mpr ⟨q, hq, rfl⟩

theorem get_bytecode_disk_mode (env : Env) (fuel : Nat) (st : ProgState)
    (cache : BytecodeCache) (p : String) (mi : Bool) :
    diskEvsMode mi (get_bytecode env fuel st cache p mi).2.2.2 = true := by
  rcases h1 : hubLookup st.hub p with _ | m
  · simp only [get_bytecode, h1]
    exact get_bytecode_miss_disk_mode env fuel st cache p mi
  · by_cases ht : m.py_bytecode.truthy = true
    · rcases hv : m.py_bytecode with _ | b | t <;>
        simp only [get_bytecode, h1, hv, BCVal.truthy] at ht ⊢ <;>
        simp [ht, diskEvsMode]
    · simp only [get_bytecode, h1,
        Bool.not_eq_true _ ▸ ht]
      simp only [ht, Bool.false_eq_true, if_false, ite_false]
      exact get_bytecode_miss_disk_mode env fuel st cache p mi

/-!
## Claim theorems
-/

/-- C1: for every input file and every compilation mode, if the module
produced by `compile()` has `has_syntax_errors` true, no code-generation
pass runs and the module's generated-artifact slot (`gen.py_bytecode`) is
empty after `compile()` returns. -/
theorem claim_C1 (env : Env) (fuel : Nat) (st : ProgState) (path : String)
    (us : Option String) (nc tc so mi : Bool)
    (hse : (compile env fuel st path us nc tc so mi).1.has_syntax_errors = true) :
    cgenFree (compile env fuel st path us nc tc so mi).2.2 = true ∧
      BCVal.isEmptySlot
        (compile env fuel st path us nc tc so mi).1.py_bytecode = true := by
  have he : hadErrorOf env (keepStrOf env us path) path = true := by
    rw [compile, compileBody_fst_has_syntax_errors] at hse
    exact hse
  constructor
  · exact compile_trace_cgenFree env fuel st path us nc tc so mi (Or.inl he)
  · rw [compile, compileBody_err_py_bytecode env _ st path us nc tc so mi he]
    rfl

/-- C1 witness: a concrete input whose parse fails. -/
theorem claim_C1_witness :
    (compile envErr 0 freshProg "a.jac" none false false false
        false).1.has_syntax_errors = true ∧
    (cgenFree (compile envErr 0 freshProg "a.jac" none false false false
        false).2.2 = true ∧
      BCVal.isEmptySlot (compile envErr 0 freshProg "a.jac" none false false
        false false).1.py_bytecode = true) :=
  ⟨by decide,
    claim_C1 envErr 0 freshProg "a.jac" none false false false false (by decide)⟩

/-- C5: `parse_str` selects the parser purely by file extension — `.py` or
`.pyi` go to the foreign-AST importer, `.js`/`.ts`/`.jsx`/`.tsx` go to the
alternate scripting-language parser, every other path goes to the native
grammar parser (`selectParser`) — and in all three cases the error outcome
is computed as the parser's internal error list being non-empty. -/
theorem claim_C5 (env : Env) (cf : AnnexCF) (st : ProgState)
    (src path : String) :
    (parse_str env cf st src path).2.2.head? =
      some (Ev.parserRun (selectParser path) path) ∧
    (parse_str env cf st src path).1.has_syntax_errors =
      decide (0 < (env.parse (selectParser path) src path).errors_had.length) := by
  constructor
  · rw [parse_str_eq]
    by_cases he : hadErrorOf env src path = true <;> simp [he]
  · rw [parse_str_fst_has_syntax_errors]
    rfl

/-- C6 counterexample: a successful parse into a program whose main module
is already real does not replace the main module, so "the main module is
replaced, the module is inserted, the annex pass runs — all three exactly
when the parser reported no errors" fails at this input. -/
theorem claim_C6_counterexample :
    hadErrorOf envOk "s" "a.jac" = false ∧
    (parse_str envOk (annexCompile envOk 1) progMainReal "s"
        "a.jac").2.1.main_path = some "main.jac" ∧
    Ev.adoptMain "a.jac" ∉
      (parse_str envOk (annexCompile envOk 1) progMainReal "s" "a.jac").2.2 := by
  decide

/-- C6 (amended): when the parser reports errors, `parse_str` returns the
error-marked module without raising and the program state is untouched (no
adoption, no registry insertion, no annex pass); on success, registry
insertion and the annex pass always happen, while the main module is
replaced exactly when it is still a stub. -/
theorem claim_C6_amended (env : Env) (fuel : Nat) (st : ProgState)
    (src path : String) :
    (hadErrorOf env src path = true →
      (parse_str env (annexCompile env fuel) st src path).1.has_syntax_errors
          = true ∧
      (parse_str env (annexCompile env fuel) st src path).2.1 = st ∧
      (parse_str env (annexCompile env fuel) st src path).2.2 =
        [Ev.parserRun (selectParser path) path]) ∧
    (hadErrorOf env src path = false →
      Ev.hubInsertEv path ∈
        (parse_str env (annexCompile env fuel) st src path).2.2 ∧
      Ev.passRun .jacAnnex path ∈
        (parse_str env (annexCompile env fuel) st src path).2.2 ∧
      (Ev.adoptMain path ∈
          (parse_str env (annexCompile env fuel) st src path).2.2 ↔
        st.main_stub = true)) := by
  constructor
  · intro he
    refine ⟨?_, ?_, ?_⟩
    · rw [parse_str_fst_has_syntax_errors]; exact he
    · rw [parse_str_of_error env _ st src path he]
    · rw [parse_str_of_error env _ st src path he]
  · intro he
    refine ⟨?_, ?_, ?_⟩
    · rw [parse_str_eq]
      simp [he, parsedModOf]
    · rw [parse_str_eq]
      simp only [he, Bool.false_eq_true, if_false, ite_false]
      have hj := jacAnnexPass_annex_ev env (annexCompile env fuel)
        (insertedState (adoptState st path) (parsedModOf env src path))
        (parsedModOf env src path)
      have hmp : (parsedModOf env src path).mod_path = path := rfl
      rw [hmp] at hj
      exact List.mem_append.mpr (Or.inr hj)
    · constructor
      · intro hmem
        by_contra hns
        have hm2 : st.main_stub = false := by
          revert hns; cases st.main_stub <;> simp
        exact (parse_str_main_stub env (annexCompile env fuel) st src path
          (annexCompile_main_stub env fuel) hm2).2 path hmem
      · intro hm
        rw [parse_str_eq]
        simp [he, adoptTrace, hm]

/-- C6 amended witness: the error case at a concrete input, and the
success case at a concrete stubbed program. -/
theorem claim_C6_amended_witness :
    ((parse_str envErr (annexCompile envErr 1) freshProg "s"
        "a.jac").1.has_syntax_errors = true ∧
      (parse_str envErr (annexCompile envErr 1) freshProg "s" "a.jac").2.1
        = freshProg ∧
      (parse_str envErr (annexCompile envErr 1) freshProg "s" "a.jac").2.2 =
        [Ev.parserRun (selectParser "a.jac") "a.jac"]) ∧
    (Ev.hubInsertEv "a.jac" ∈
      (parse_str envOk (annexCompile envOk 1) freshProg "s" "a.jac").2.2 ∧
      Ev.passRun .jacAnnex "a.jac" ∈
        (parse_str envOk (annexCompile envOk 1) freshProg "s" "a.jac").2.2 ∧
      (Ev.adoptMain "a.jac" ∈
          (parse_str envOk (annexCompile envOk 1) freshProg "s" "a.jac").2.2 ↔
        freshProg.main_stub = true)) :=
  ⟨(claim_C6_amended envErr 1 freshProg "s" "a.jac").1 (by decide),
   (claim_C6_amended envOk 1 freshProg "s" "a.jac").2 (by decide)⟩

/-- C7 counterexample: `JacProgram.compile` with `minimal=true` (error-free
input, codegen enabled) runs all three dynamic-behavior fixup passes,
refuting "they do not run when compiling in minimal mode". -/
theorem claim_C7_counterexample :
    Ev.passRun .catchBreaks "a.jac" ∈
      (compile envOk 1 freshProg "a.jac" none false false false true).2.2 ∧
    Ev.passRun .fixDynBreaks "a.jac" ∈
      (compile envOk 1 freshProg "a.jac" none false false false true).2.2 ∧
    Ev.passRun .fixSEBreaks "a.jac" ∈
      (compile envOk 1 freshProg "a.jac" none false false false true).2.2 := by
  decide

/-- C7 (amended): in `JacProgram.compile` the three dynamic-behavior fixup
passes are inserted at the head of whichever code-generation schedule is
selected, so each of them runs exactly when code generation runs — in
minimal mode as well as in full mode — and never when the module has
syntax errors or code generation is suppressed. -/
theorem claim_C7_amended (env : Env) (fuel : Nat) (st : ProgState)
    (path : String) (us : Option String) (nc tc so mi : Bool) :
    ∀ q ∈ [PassName.catchBreaks, PassName.fixDynBreaks, PassName.fixSEBreaks],
      (Ev.passRun q path ∈ (compile env fuel st path us nc tc so mi).2.2 ↔
        ((compile env fuel st path us nc tc so mi).1.has_syntax_errors = false ∧
          nc = false)) := by
  intro q hq
  have hall : ∀ r ∈ [PassName.catchBreaks, PassName.fixDynBreaks,
      PassName.fixSEBreaks], isCgenPass r = true := by decide
  have hqc := hall q hq
  have hqs : ∀ r ∈ [PassName.catchBreaks, PassName.fixDynBreaks,
      PassName.fixSEBreaks], r ∈ codegenSchedOf mi := by
    cases mi <;> decide
  constructor
  · intro hmem
    by_contra hcon
    have hd : hadErrorOf env (keepStrOf env us path) path = true ∨ nc = true := by
      rcases hcg : hadErrorOf env (keepStrOf env us path) path with _ | _
      · rcases hnc : nc with _ | _
        · exact absurd ⟨by rw [compile, compileBody_fst_has_syntax_errors, hcg],
            hnc⟩ hcon
        · exact Or.inr rfl
      · exact Or.inl rfl
    have hfree := compile_trace_cgenFree env fuel st path us nc tc so mi hd
    rw [cgenFree, List.all_eq_true] at hfree
    have := hfree _ hmem
    simp [cgenPred, hqc] at this
  · intro hcond
    have he : hadErrorOf env (keepStrOf env us path) path = false := by
      rw [compile, compileBody_fst_has_syntax_errors] at hcond
      exact hcond.1
    exact compile_cgen_run env fuel st path us nc tc so mi he hcond.2 q (hqs q hq)

/-- C7 amended witness: in minimal mode on an error-free input, the
detector pass does run during code generation. -/
theorem claim_C7_amended_witness :
    Ev.passRun .catchBreaks "b.jac" ∈
      (compile envOk 1 freshProg "b.jac" none false false false true).2.2 :=
  (claim_C7_amended envOk 1 freshProg "b.jac" none false false false true
    .catchBreaks (by decide)).mpr ⟨by decide, rfl⟩

/-- C2 counterexample: a `get_bytecode` call with `minimal=true` on a fresh
program compiles, stores the artifact in the disk tier under the
`minimal=true` key and registers the module in-memory; the subsequent call
with `minimal=false` on the resulting state returns that same artifact with
an empty trace — served from the in-memory entry produced and cached under
the other mode, refuting "the two modes never share a cache entry across
all three tiers". -/
theorem claim_C2_counterexample :
    (get_bytecode envOk 1 freshProg ⟨[]⟩ "a.jac" true).1 = some 7 ∧
    Ev.diskPut "a.jac" true ∈
      (get_bytecode envOk 1 freshProg ⟨[]⟩ "a.jac" true).2.2.2 ∧
    (hubLookup (get_bytecode envOk 1 freshProg ⟨[]⟩ "a.jac" true).2.1.hub
        "a.jac").map ModData.py_bytecode = some (BCVal.bytesV [7]) ∧
    (get_bytecode envOk 1 (get_bytecode envOk 1 freshProg ⟨[]⟩ "a.jac" true).2.1
        (get_bytecode envOk 1 freshProg ⟨[]⟩ "a.jac" true).2.2.1 "a.jac"
        false).1 = some 7 ∧
    (get_bytecode envOk 1 (get_bytecode envOk 1 freshProg ⟨[]⟩ "a.jac" true).2.1
        (get_bytecode envOk 1 freshProg ⟨[]⟩ "a.jac" true).2.2.1 "a.jac"
        false).2.2.2 = [] := by
  decide

/-- C2 (amended): the disk tier never shares entries across modes — the
`CacheKey` carries the mode flag, keys of the two modes are distinct, a
`put` under one key never changes lookups under another key, and every disk
access of a `get_bytecode` call carries the requested mode flag; but the
in-memory registry tier is keyed by path alone, so a request in one mode
can be served the artifact compiled and registered under the other mode. -/
theorem claim_C2_amended (env : Env) (fuel : Nat) (st : ProgState)
    (cache : BytecodeCache) (p : String) (mi : Bool) :
    CacheKey.for_source env p true ≠ CacheKey.for_source env p false ∧
    (∀ (c : BytecodeCache) (k k2 : CacheKey) (b : List Nat), k2 ≠ k →
      (c.putE k b).getE k2 = c.getE k2) ∧
    diskEvsMode mi (get_bytecode env fuel st cache p mi).2.2.2 = true := by
  refine ⟨?_, ?_, get_bytecode_disk_mode env fuel st cache p mi⟩
  · intro hcon
    exact Bool.noConfusion (congrArg CacheKey.minimal hcon)
  · intro c k k2 b hne
    simp only [BytecodeCache.putE, BytecodeCache.getE, cacheFind]
    rw [if_neg (fun hh : k = k2 => hne hh.symm)]

/-- C2 amended witness: putting under the `minimal=true` key leaves the
`minimal=false` lookup unchanged. -/
theorem claim_C2_amended_witness :
    (⟨"a", false⟩ : CacheKey) ≠ ⟨"a", true⟩ ∧
    (BytecodeCache.putE ⟨[]⟩ ⟨"a", true⟩ [1]).getE ⟨"a", false⟩ =
      BytecodeCache.getE ⟨[]⟩ ⟨"a", false⟩ :=
  ⟨by decide, (claim_C2_amended envOk 1 freshProg ⟨[]⟩ "a.jac" true).2.1 ⟨[]⟩
    ⟨"a", true⟩ ⟨"a", false⟩ [1] (by decide)⟩

/-- C10: if the registry already holds a module for the requested path whose
bytecode slot is populated but is not a `bytes` object, `get_bytecode`
returns `None` immediately: the program state and the disk cache are
untouched and the trace is empty — no disk-tier lookup and no
recompilation. -/
theorem claim_C10 (env : Env) (fuel : Nat) (st : ProgState)
    (cache : BytecodeCache) (p : String) (mi : Bool) (m : ModData) (t : Nat)
    (hm : hubLookup st.hub p = some m) (hbc : m.py_bytecode = BCVal.otherV t) :
    get_bytecode env fuel st cache p mi = (none, st, cache, []) := by
  simp [get_bytecode, hm, hbc, BCVal.truthy]

/-- C10 witness: a registry holding a non-`bytes` artifact for the path. -/
theorem claim_C10_witness :
    hubLookup progOther.hub "a.jac" = some modOther ∧
    modOther.py_bytecode = BCVal.otherV 0 ∧
    get_bytecode envOk 1 progOther ⟨[]⟩ "a.jac" false =
      (none, progOther, ⟨[]⟩, []) :=
  ⟨by decide, by decide,
    claim_C10 envOk 1 progOther ⟨[]⟩ "a.jac" false modOther 0 (by decide)
      (by decide)⟩

/-- C3 counterexample: compiling a base module whose discovery yields one
implementation-annex file inserts that annex into the program's registry
under its own path, refuting "annex modules are never inserted into the
registry under their own path". -/
theorem claim_C3_counterexample :
    envAnnex.discover_annex_files "b.jac" ".impl.jac" = ["b.impl.jac"] ∧
    hubLookup (compile envAnnex 2 freshProg "b.jac" none false false false
        false).2.1.hub "b.impl.jac" ≠ none := by
  decide

/-- C3 (amended): every discovered annex file is compiled with
`no_cgen=true` and `minimal=true` and its path is appended to the base
module's `impl_mod` or `test_mod` list by suffix category; however each
annex whose parse succeeds is ALSO inserted into the program's registry
under its own path by the shared `parse_str` path. -/
theorem claim_C3_amended (env : Env) (fuel : Nat) (st : ProgState)
    (m : ModData) (h1 : m.stub_only = false)
    (h2 : endsWithP m.mod_path ".jac" = true) (h3 : m.annexable_by = false) :
    (jacAnnexPass env (annexCompile env (fuel + 1)) st m).1.impl_mod =
      m.impl_mod ++ env.discover_annex_files m.mod_path ".impl.jac" ∧
    (jacAnnexPass env (annexCompile env (fuel + 1)) st m).1.test_mod =
      m.test_mod ++ env.discover_annex_files m.mod_path ".test.jac" ∧
    (∀ p ∈ env.discover_annex_files m.mod_path ".impl.jac" ++
        env.discover_annex_files m.mod_path ".test.jac",
      Ev.compileCall p true true ∈
        (jacAnnexPass env (annexCompile env (fuel + 1)) st m).2.2) ∧
    (∀ p ∈ env.discover_annex_files m.mod_path ".impl.jac" ++
        env.discover_annex_files m.mod_path ".test.jac",
      parseOk env p = true →
        hubLookup
          (jacAnnexPass env (annexCompile env (fuel + 1)) st m).2.1.hub p
          ≠ none) := by
  have hg : (m.stub_only || !(endsWithP m.mod_path ".jac") || m.annexable_by)
      = false := by
    rw [h1, h2, h3]; rfl
  have hcc : ∀ (st2 : ProgState) (q : String), Ev.compileCall q true true ∈
      (compileBody env (annexCompile env fuel) st2 q none true false false
        true).2.2 := by
    intro st2 q
    rw [compileBody_trace]
    exact List.mem_cons_self _ _
  have hself : ∀ (st2 : ProgState) (q : String), parseOk env q = true →
      hubLookup (compileBody env (annexCompile env fuel) st2 q none true false
        false true).2.1.hub q ≠ none := by
    intro st2 q hok
    have heq : hadErrorOf env (env.read_file q) q = false := by
      simpa [parseOk] using hok
    exact compileBody_hub_self env _ st2 q none true false false true heq
  have hmono : ∀ (st2 : ProgState) (q k : String),
      hubLookup st2.hub k ≠ none →
      hubLookup (compileBody env (annexCompile env fuel) st2 q none true false
        false true).2.1.hub k ≠ none := by
    intro st2 q k hk
    exact compileBody_hub_mono env _ q none true false false true k
      (annexCompile_hub_mono env k fuel) st2 hk
  refine ⟨?_, ?_, ?_, ?_⟩
  · simp [jacAnnexPass, hg, loadAnnexList_some_fst, annexCompile]
  · simp [jacAnnexPass, hg, loadAnnexList_some_fst, annexCompile]
  · intro p hp
    simp only [jacAnnexPass, hg, Bool.false_eq_true, if_false, ite_false,
      annexCompile]
    rcases List.mem_append.mp hp with hp | hp
    · refine List.mem_append.mpr (Or.inl (List.mem_append.mpr (Or.inr ?_)))
      exact loadAnnexList_cc_mem _ _ hcc _ p hp
    · refine List.mem_append.mpr (Or.inr ?_)
      exact loadAnnexList_cc_mem _ _ hcc _ p hp
  · intro p hp hok
    simp only [jacAnnexPass, hg, Bool.false_eq_true, if_false, ite_false,
      annexCompile]
    rcases List.mem_append.mp hp with hp | hp
    · refine loadAnnexList_hub_mono _ _ p
        (fun f2 hf2 st2 q hk =>
          (Option.some.injEq _ _ ▸ hf2 :
            (fun st2 q => compileBody env (annexCompile env fuel) st2 q none
              true false false true) = f2) ▸ hmono st2 q p hk) _ ?_
      exact loadAnnexList_hub_of_ok env _ _ hself hmono _ p hp hok
    · exact loadAnnexList_hub_of_ok env _ _ hself hmono _ p hp hok

/-- C3 amended witness: the concrete base module with one implementation
annex. -/
theorem claim_C3_amended_witness :
    ((jacAnnexPass envAnnex (annexCompile envAnnex 1) freshProg
        modBase).1.impl_mod = modBase.impl_mod ++
          envAnnex.discover_annex_files modBase.mod_path ".impl.jac") ∧
    (∀ p ∈ envAnnex.discover_annex_files modBase.mod_path ".impl.jac" ++
        envAnnex.discover_annex_files modBase.mod_path ".test.jac",
      parseOk envAnnex p = true →
        hubLookup (jacAnnexPass envAnnex (annexCompile envAnnex 1) freshProg
          modBase).2.1.hub p ≠ none) :=
  ⟨(claim_C3_amended envAnnex 0 freshProg modBase (by decide) (by decide)
      (by decide)).1,
   (claim_C3_amended envAnnex 0 freshProg modBase (by decide) (by decide)
      (by decide)).2.2.2⟩

/-- C4: a path whose normalized form lies under the toolchain's own
installation root resolves to one internal program, lazily constructed on
first use and the same on every subsequent call to the same router; every
other path resolves to exactly the caller-supplied program; and compiling
an internal file through `JacCompiler.compile` never mutates the caller
program's state (registry and diagnostic lists). -/
theorem claim_C4 (env : Env) (g : JacCompiler.GState) (p : String) (t : Nat)
    (fuel : Nat) (us : Option String) (nc tc so mi : Bool) :
    (JacCompiler.is_internal_path env p = false →
      JacCompiler.resolve_program env g p t = (t, g)) ∧
    (JacCompiler.is_internal_path env p = true →
      (JacCompiler.resolve_program env g p t).2.internal_prog =
        some (JacCompiler.resolve_program env g p t).1 ∧
      (∀ (g2 : JacCompiler.GState) (p2 : String) (t2 : Nat),
        g2.internal_prog = some (JacCompiler.resolve_program env g p t).1 →
        JacCompiler.is_internal_path env p2 = true →
        JacCompiler.resolve_program env g2 p2 t2 =
          ((JacCompiler.resolve_program env g p t).1, g2)) ∧
      (JacCompiler.compile env fuel g p t us nc tc so mi).2.1.internal_prog =
        some (JacCompiler.resolve_program env g p t).1 ∧
      (t < g.next_id → (∀ pid, g.internal_prog = some pid → t ≠ pid) →
        JacCompiler.progsLookup
          (JacCompiler.compile env fuel g p t us nc tc so mi).2.1.progs t =
          JacCompiler.progsLookup g.progs t)) := by
  constructor
  · intro hni
    simp [JacCompiler.resolve_program, hni]
  · intro hi
    have hres2 : ∀ (g2 : JacCompiler.GState) (p2 : String) (t2 : Nat) (pid : Nat),
        g2.internal_prog = some pid →
        JacCompiler.is_internal_path env p2 = true →
        JacCompiler.resolve_program env g2 p2 t2 = (pid, g2) := by
      intro g2 p2 t2 pid hg2 hi2
      simp [JacCompiler.resolve_program, JacCompiler.internal_program, hi2, hg2]
    rcases hip : g.internal_prog with _ | pid
    · have hr : JacCompiler.resolve_program env g p t =
          (g.next_id,
           { internal_prog := some g.next_id, next_id := g.next_id + 1,
             progs := (g.next_id, freshProg) :: g.progs }) := by
        simp [JacCompiler.resolve_program, JacCompiler.internal_program, hi, hip]
      refine ⟨by rw [hr], ?_, ?_, ?_⟩
      · intro g2 p2 t2 hg2 hi2
        rw [hr] at hg2 ⊢
        exact hres2 g2 p2 t2 _ hg2 hi2
      · simp [JacCompiler.compile, hr]
      · intro hlt hne
        have htne : t ≠ g.next_id := Nat.ne_of_lt hlt
        simp only [JacCompiler.compile, hr]
        rw [progsLookup_progsInsert_ne _ _ _ _ htne]
        simp only [JacCompiler.progsLookup]
        rw [if_neg (fun hh : g.next_id = t => htne hh.symm)]
    · have hr : JacCompiler.resolve_program env g p t = (pid, g) :=
        hres2 g p t pid hip hi
      refine ⟨by rw [hr]; exact hip, ?_, ?_, ?_⟩
      · intro g2 p2 t2 hg2 hi2
        rw [hr] at hg2 ⊢
        exact hres2 g2 p2 t2 _ hg2 hi2
      · simp [JacCompiler.compile, hr, hip]
      · intro hlt hne
        have htne : t ≠ pid := hne pid rfl
        simp only [JacCompiler.compile, hr]
        exact progsLookup_progsInsert_ne _ _ _ _ htne

/-- C4 witness: a router with one user program and no internal program yet,
on an internal path and on a user path. -/
theorem claim_C4_witness :
    (JacCompiler.is_internal_path envOk "/jl/core.jac" = true ∧
      (JacCompiler.resolve_program envOk gUser "/jl/core.jac" 0).2.internal_prog
        = some (JacCompiler.resolve_program envOk gUser "/jl/core.jac" 0).1 ∧
      (0 < gUser.next_id ∧
        JacCompiler.progsLookup
          (JacCompiler.compile envOk 1 gUser "/jl/core.jac" 0 none false false
            false false).2.1.progs 0 =
          JacCompiler.progsLookup gUser.progs 0)) ∧
    (JacCompiler.is_internal_path envOk "user.jac" = false ∧
      JacCompiler.resolve_program envOk gUser "user.jac" 0 = (0, gUser)) :=
  ⟨⟨by decide,
    ((claim_C4 envOk gUser "/jl/core.jac" 0 1 none false false false
      false).2 (by decide)).1,
    ⟨by decide,
      ((claim_C4 envOk gUser "/jl/core.jac" 0 1 none false false false
        false).2 (by decide)).2.2.2 (by decide) (fun pid hpid =>
          Option.noConfusion hpid)⟩⟩,
   ⟨by decide,
    (claim_C4 envOk gUser "user.jac" 0 1 none false false false false).1
      (by decide)⟩⟩

/-- Auxiliary for C8: the closed form of `run_schedule_tok` under a token
that becomes set exactly at step `k`. -/
theorem run_schedule_tok_eq {σ : Type} (eff : PassName → σ → σ)
    (tok : Nat → Bool) (k : Nat) (hk : ∀ j, tok j = true ↔ k ≤ j) :
    ∀ (passes : List PassName) (i : Nat) (s : σ),
      run_schedule_tok eff tok passes i s =
        ((passes.take (k - i)).foldl (fun a p => eff p a) s,
         (passes.take (k - i)).enumFrom i) := by
  intro passes
  induction passes with
  | nil => intro i s; simp [run_schedule_tok]
  | cons p rest ih =>
    intro i s
    by_cases hki : k ≤ i
    · have htok : tok i = true := (hk i).mpr hki
      have hz : k - i = 0 := Nat.sub_eq_zero_of_le hki
      have hz2 : k - (i + 1) = 0 := Nat.sub_eq_zero_of_le (le_trans hki (Nat.le_succ i))
      simp [run_schedule_tok, htok, transformRun, hz, ih, hz2]
    · have htok : tok i = false := by
        rcases hb : tok i with _ | _
        · rfl
        · exact absurd ((hk i).mp hb) hki
      have hs : k - i = (k - (i + 1)) + 1 := by omega
      simp [run_schedule_tok, htok, transformRun, hs, ih, List.enumFrom]

/-- Auxiliary for C8: indices in `enumFrom` are bounded. -/
theorem enumFrom_fst_lt {α : Type} (l : List α) :
    ∀ (i : Nat) (q : Nat × α), q ∈ l.enumFrom i → q.1 < i + l.length := by
  induction l with
  | nil => intro i q hq; exact absurd hq (List.not_mem_nil q)
  | cons a rest ih =>
    intro i q hq
    rcases List.mem_cons.mp hq with hq | hq
    · subst hq; simp
    · have := ih (i + 1) q hq
      simp only [List.length_cons]
      omega

/-- C8: when the cancel token becomes set at step `k` of a schedule run,
no pass from index `k` onward starts executing, and the final state is
exactly the fold of the passes before `k` — already-applied passes are not
rolled back. -/
theorem claim_C8 {σ : Type} (eff : PassName → σ → σ) (tok : Nat → Bool)
    (passes : List PassName) (k : Nat) (s : σ)
    (hk : ∀ j, tok j = true ↔ k ≤ j) :
    (∀ q ∈ (run_schedule_tok eff tok passes 0 s).2, q.1 < k) ∧
    (run_schedule_tok eff tok passes 0 s).1 =
      (passes.take k).foldl (fun a p => eff p a) s := by
  have he := run_schedule_tok_eq eff tok k hk passes 0 s
  rw [he]
  constructor
  · intro q hq
    have hb := enumFrom_fst_lt _ 0 q hq
    have hlen : (passes.take (k - 0)).length ≤ k := by
      simp [List.length_take]
    omega
  · simp

/-- C8 witness: a token set from step 2 on over the five-pass full IR
schedule. -/
theorem claim_C8_witness :
    (∀ j, (fun j => decide (2 ≤ j)) j = true ↔ 2 ≤ j) ∧
    ((∀ q ∈ (run_schedule_tok (fun _ n => n + 1) (fun j => decide (2 ≤ j))
        get_ir_gen_sched 0 0).2, q.1 < 2) ∧
      (run_schedule_tok (fun _ n => n + 1) (fun j => decide (2 ≤ j))
        get_ir_gen_sched 0 0).1 =
        (get_ir_gen_sched.take 2).foldl (fun a _ => a + 1) 0) :=
  ⟨fun j => by simp,
   claim_C8 (fun _ n => n + 1) (fun j => decide (2 ≤ j)) get_ir_gen_sched 2 0
     (fun j => by simp)⟩

/-- Auxiliary for C9: the `if`/`elif` chain of `exit_if_stmt` fires exactly
on the recognised branch shapes. -/
theorem exitIfCore_isSome (condition : UExpr) (a0 b0 : UStmt) :
    (exitIfCore condition a0 b0).isSome = recognizedShape a0 b0 := by
  cases a0 with
  | assignment ta av =>
    cases b0 with
    | assignment tb bv =>
      rcases h : check_same_lhs (.assignment ta av) (.assignment tb bv)
        with _ | lhsv <;>
        simp [exitIfCore, recognizedShape, sameTargetAssigns,
          bothReturnsWithExprs, matchingMethodCalls, check_method_call, h]
    | returnStmt be =>
      cases be <;>
        simp [exitIfCore, recognizedShape, sameTargetAssigns,
          bothReturnsWithExprs, matchingMethodCalls, check_same_lhs,
          check_method_call]
    | exprStmt eb =>
      simp [exitIfCore, recognizedShape, sameTargetAssigns,
        bothReturnsWithExprs, matchingMethodCalls, check_same_lhs,
        check_method_call]
    | ifStmt c bd eb fl =>
      simp [exitIfCore, recognizedShape, sameTargetAssigns,
        bothReturnsWithExprs, matchingMethodCalls, check_same_lhs,
        check_method_call]
    | otherStmt n =>
      simp [exitIfCore, recognizedShape, sameTargetAssigns,
        bothReturnsWithExprs, matchingMethodCalls, check_same_lhs,
        check_method_call]
  | returnStmt ae =>
    cases b0 with
    | returnStmt be =>
      cases ae <;> cases be <;>
        simp [exitIfCore, recognizedShape, sameTargetAssigns,
          bothReturnsWithExprs, matchingMethodCalls, check_same_lhs,
          check_method_call]
    | assignment tb bv =>
      cases ae <;>
        simp [exitIfCore, recognizedShape, sameTargetAssigns,
          bothReturnsWithExprs, matchingMethodCalls, check_same_lhs,
          check_method_call]
    | exprStmt eb =>
      cases ae <;>
        simp [exitIfCore, recognizedShape, sameTargetAssigns,
          bothReturnsWithExprs, matchingMethodCalls, check_same_lhs,
          check_method_call]
    | ifStmt c bd eb fl =>
      cases ae <;>
        simp [exitIfCore, recognizedShape, sameTargetAssigns,
          bothReturnsWithExprs, matchingMethodCalls, check_same_lhs,
          check_method_call]
    | otherStmt n =>
      cases ae <;>
        simp [exitIfCore, recognizedShape, sameTargetAssigns,
          bothReturnsWithExprs, matchingMethodCalls, check_same_lhs,
          check_method_call]
  | exprStmt ea =>
    cases b0 with
    | exprStmt eb =>
      rcases hma : check_method_call (.exprStmt ea) with _ | ac
      · simp [exitIfCore, recognizedShape, sameTargetAssigns,
          bothReturnsWithExprs, matchingMethodCalls, check_same_lhs, hma]
      · rcases hmb : check_method_call (.exprStmt eb) with _ | bc
        · simp [exitIfCore, recognizedShape, sameTargetAssigns,
            bothReturnsWithExprs, matchingMethodCalls, check_same_lhs,
            hma, hmb]
        · simp only [exitIfCore, recognizedShape, sameTargetAssigns,
            bothReturnsWithExprs, matchingMethodCalls, check_same_lhs, hma,
            hmb, Bool.or_false, Bool.false_or]
          by_cases hA : (decide (ac.2.1 = bc.2.1) && sameKeySet ac.2.2.2
              bc.2.2.2) = true
          · rw [if_pos hA, hA, Bool.true_and]
            rcases ac.2.2.1 with _ | ⟨fa, _ | ⟨sa, ra⟩⟩ <;>
              rcases bc.2.2.1 with _ | ⟨fb, _ | ⟨sb, rb⟩⟩ <;>
              first
              | rfl
              | (rcases hfa : firstArgStr fa with _ | astr <;>
                  rcases hfb : firstArgStr fb with _ | bstr <;>
                  simp only [hfa, hfb] <;>
                  first
                  | rfl
                  | (by_cases hab : (decide (astr = bstr)) = true <;>
                      simp [hab]))
          · rw [if_neg hA]
            rcases hAB : (decide (ac.2.1 = bc.2.1) && sameKeySet ac.2.2.2
                bc.2.2.2) with _ | _
            · simp
            · exact absurd hAB hA
    | assignment tb bv =>
      simp [exitIfCore, recognizedShape, sameTargetAssigns,
        bothReturnsWithExprs, matchingMethodCalls, check_same_lhs,
        check_method_call]
    | returnStmt be =>
      cases be <;>
        simp [exitIfCore, recognizedShape, sameTargetAssigns,
          bothReturnsWithExprs, matchingMethodCalls, check_same_lhs,
          check_method_call]
    | ifStmt c bd eb fl =>
      simp [exitIfCore, recognizedShape, sameTargetAssigns,
        bothReturnsWithExprs, matchingMethodCalls, check_same_lhs,
        check_method_call]
    | otherStmt n =>
      simp [exitIfCore, recognizedShape, sameTargetAssigns,
        bothReturnsWithExprs, matchingMethodCalls, check_same_lhs,
        check_method_call]
  | ifStmt c bd eb fl =>
    cases b0 <;>
      simp [exitIfCore, recognizedShape, sameTargetAssigns,
        bothReturnsWithExprs, matchingMethodCalls, check_same_lhs,
        check_method_call]
  | otherStmt n =>
    cases b0 <;>
      simp [exitIfCore, recognizedShape, sameTargetAssigns,
        bothReturnsWithExprs, matchingMethodCalls, check_same_lhs,
        check_method_call]

/-- C9: `FixBreaksPass.exit_if_stmt` transforms an if-statement exactly
when it carries the dynamic-control-flow-break flag set by the detector
pass and both branches contain exactly one statement of a recognised shape
(two assignments to the same target, two returns with expressions, or two
matching method calls); every if-statement not meeting all of these
conditions is left completely unchanged by the pass (the well-formedness
hypotheses exclude malformed AST nodes on which the Python pass would
raise instead of returning). -/
theorem claim_C9 (condition : UExpr) (body : List UStmt)
    (elseBody : Option (List UStmt)) (flag : Bool)
    (hwf : branchesWF body = true)
    (hwf2 : ∀ eb, elseBody = some eb → branchesWF eb = true) :
    ((exit_if_stmt (UStmt.ifStmt condition body elseBody flag)).isSome = true ↔
      (flag = true ∧ ∃ a0 b0, body = [a0] ∧ elseBody = some [b0] ∧
        recognizedShape a0 b0 = true)) ∧
    (exit_if_stmt (UStmt.ifStmt condition body elseBody flag) = none →
      fixBreaksOnBody [UStmt.ifStmt condition body elseBody flag] =
        [UStmt.ifStmt condition body elseBody flag]) := by
  constructor
  · cases hfl : flag
    · simp [exit_if_stmt]
    · rcases body with _ | ⟨a0, _ | ⟨a1, arest⟩⟩
      · simp [exit_if_stmt]
      · rcases elseBody with _ | eb
        · simp [exit_if_stmt]
        · rcases eb with _ | ⟨b0, _ | ⟨b1, brest⟩⟩
          · simp [exit_if_stmt]
          · simp [exit_if_stmt, exitIfCore_isSome]
          · simp [exit_if_stmt]
      · simp [exit_if_stmt]
  · intro h
    simp [fixBreaksOnBody, h]

/-- C9 witness: a flagged if-statement whose branches are single
assignments to the same target is transformed. -/
theorem claim_C9_witness :
    branchesWF [UStmt.assignment [UExpr.name "x"] (UExpr.otherE 1)] = true ∧
    (exit_if_stmt (UStmt.ifStmt (UExpr.otherE 0)
        [UStmt.assignment [UExpr.name "x"] (UExpr.otherE 1)]
        (some [UStmt.assignment [UExpr.name "x"] (UExpr.otherE 2)])
        true)).isSome = true := by
  refine ⟨rfl, (claim_C9 (UExpr.otherE 0)
      [UStmt.assignment [UExpr.name "x"] (UExpr.otherE 1)]
      (some [UStmt.assignment [UExpr.name "x"] (UExpr.otherE 2)]) true rfl
      ?_).1.mpr ?_⟩
  · intro eb heb
    injection heb with h
    rw [← h]
    rfl
  · exact ⟨rfl, UStmt.assignment [UExpr.name "x"] (UExpr.otherE 1),
      UStmt.assignment [UExpr.name "x"] (UExpr.otherE 2), rfl, rfl, rfl⟩

end JacCore

